import Mathlib

/-!
Verification development for the `macdylibbundler` consolidated source
(`bundler.cpp`).  The C++ program is shallowly embedded: strings are Lean
`String`s manipulated through their character lists, the global mutable
state (`deps`, `deps_per_file`, `deps_collected`, `rpaths_per_file`,
`rpath_to_fullpath`, `missing_prefixes`, the `Settings` namespace) becomes an
explicit state record that is threaded through every operation, and the
external collaborators (filesystem, `otool` inspector, shell command
execution, interactive prompting) are modelled as an environment record of
pure functions.  Mutating shell invocations are recorded as the literal
command strings the program would pass to `system`, and calls to `exit(1)`
become `Except.error` values.
-/

/-- C `isspace` on the default locale: the six standard whitespace chars. -/
def isSpaceC (c : Char) : Bool :=
  c = ' ' || c = '\t' || c = '\n' || c = '\x0b' || c = '\x0c' || c = '\r'

/-- `rtrim` from bundler.cpp: erase trailing whitespace characters. -/
def rtrim (s : String) : String :=
  ⟨(s.data.reverse.dropWhile isSpaceC).reverse⟩

/-- Index of the last occurrence of `pat` in `s` (C++ `std::string::rfind`),
`none` when `pat` does not occur. -/
def rfindSub (s pat : String) : Option Nat :=
  ((List.range (s.data.length + 1)).filter
    (fun i => pat.data.isPrefixOf (s.data.drop i))).getLast?

/-- `stripPrefix` from bundler.cpp: `in.substr(in.rfind("/") + 1)`.
When there is no slash, `rfind` yields `npos` and `npos + 1` wraps to `0`,
so the whole string is returned. -/
def stripPfx (s : String) : String :=
  match rfindSub s "/" with
  | some i => ⟨s.data.drop (i + 1)⟩
  | none => s

/-- The directory part kept by `Dependency::Dependency`:
`original_file.substr(0, original_file.rfind("/") + 1)`.
When there is no slash this is `substr(0, 0) = ""`. -/
def dirnameOf (s : String) : String :=
  match rfindSub s "/" with
  | some i => ⟨s.data.take (i + 1)⟩
  | none => ""

/-- C++ `s.find(pat) == 0`: `pat` occurs at position 0. -/
def strStarts (s pat : String) : Bool :=
  pat.data.isPrefixOf s.data

/-- C++ `s.find(pat) != std::string::npos`: `pat` occurs somewhere in `s`. -/
def strContains (s pat : String) : Bool :=
  (s.data.tails).any (fun t => pat.data.isPrefixOf t)

/-- Last character test used all over bundler.cpp:
`s[s.size()-1] == '/'` (on the C++ side reading index `-1` of an empty
string is undefined; we let the empty string report `false`). -/
def endsSlash (s : String) : Bool :=
  s.data.getLast? = some '/'

/-- `if (s[s.size()-1] != '/') s += "/"` (unguarded form). -/
def normSlash (s : String) : String :=
  if endsSlash s then s else s ++ "/"

/-- `if (!s.empty() && s[s.size()-1] != '/') s += "/"` (guarded form). -/
def normSlashNE (s : String) : String :=
  if s ≠ "" && !endsSlash s then s ++ "/" else s

/-- `std::regex_replace(rpath_file, std::regex("^@[a-z_]+path/"), "")`:
strip a leading `@<run>path/` marker where `<run>path` is a nonempty run of
`[a-z_]` characters followed by the literal `path/`.  Because every matched
character before the `/` lies in `[a-z_]`, the match (when it exists) ends
at the first `/` and requires everything between `@` and that `/` to be
`[a-z_]` with the last four characters spelling `path`. -/
def stripRpathMarker (s : String) : String :=
  match s.data with
  | '@' :: rest =>
    let run := rest.takeWhile (fun c => ('a' ≤ c && c ≤ 'z') || c = '_')
    let rest' := rest.dropWhile (fun c => ('a' ≤ c && c ≤ 'z') || c = '_')
    if rest'.head? = some '/' && 5 ≤ run.length &&
        "path".data.isPrefixOf (run.drop (run.length - 4)) then
      ⟨rest'.drop 1⟩
    else s
  | _ => s

/-- The dependency-name extraction in `collectDependencies`:
`line.substr(1, line.rfind(" (") - 1)`.  When `" ("` is absent, `rfind`
returns `npos`, and `npos - 1` is still huge, so everything after the first
character is kept; the same happens when `rfind` returns `0` because
`size_t` arithmetic wraps. -/
def extractPath (line : String) : String :=
  match rfindSub line " (" with
  | some i => if i = 0 then ⟨line.data.drop 1⟩ else ⟨(line.data.drop 1).take (i - 1)⟩
  | none => ⟨line.data.drop 1⟩

/-- `isRpath` from bundler.cpp. -/
def isRpath (path : String) : Bool :=
  strStarts path "@rpath" || strStarts path "@loader_path"

/-- The `Settings` namespace of bundler.cpp as a record.  Field names follow
the C++ globals. -/
structure Settings where
  overwrite_files : Bool
  overwrite_dir : Bool
  create_dir : Bool
  codesign : Bool
  bundleLibs_bool : Bool
  dest_folder_str : String
  files : List String
  inside_path_str : String
  prefixes_to_ignore : List String
  searchPaths : List String
deriving Repr, DecidableEq

/-- The start-up values of the `Settings` globals. -/
def defaultSettings : Settings :=
  { overwrite_files := false
    overwrite_dir := false
    create_dir := false
    codesign := true
    bundleLibs_bool := false
    dest_folder_str := "./libs/"
    files := []
    inside_path_str := "@executable_path/../libs/"
    prefixes_to_ignore := []
    searchPaths := [] }

/-- `Settings::isSystemLibrary`. -/
def isSystemLibrary (p : String) : Bool :=
  strStarts p "/usr/lib/" || strStarts p "/System/Library/"

/-- `Settings::isPrefixIgnored`: note that this is an *exact* string
comparison (`prefix.compare(prefixes_to_ignore[n]) == 0`), not a
starts-with test. -/
def isPrefixIgnored (st : Settings) (p : String) : Bool :=
  st.prefixes_to_ignore.any (fun q => p = q)

/-- `Settings::isPrefixBundled`. -/
def isPrefixBundled (st : Settings) (p : String) : Bool :=
  !(strContains p ".framework") && !(strContains p "@executable_path") &&
  !(isSystemLibrary p) && !(isPrefixIgnored st p)

/-- `Settings::addSearchPath`. -/
def addSearchPath (st : Settings) (p : String) : Settings :=
  { st with searchPaths := st.searchPaths ++ [p] }

/-- `Settings::ignore_prefix`: normalize the trailing slash, then append to
the ignore list. -/
def ignorePrefixSetting (st : Settings) (p : String) : Settings :=
  { st with prefixes_to_ignore := st.prefixes_to_ignore ++ [normSlashNE p] }

/-- The `Dependency` entity.  `pfx` is the C++ member `prefix` (the
directory part of the resolved path); the other fields keep their names. -/
structure Dependency where
  filename : String
  pfx : String
  symlinks : List String
  new_name : String
deriving Repr, DecidableEq

/-- `Dependency::getOriginalPath`. -/
def Dependency.getOriginalPath (d : Dependency) : String :=
  d.pfx ++ d.filename

/-- `Dependency::getInstallPath`. -/
def Dependency.getInstallPath (d : Dependency) (st : Settings) : String :=
  st.dest_folder_str ++ d.new_name

/-- `Dependency::getInnerPath`. -/
def Dependency.getInnerPath (d : Dependency) (st : Settings) : String :=
  st.inside_path_str ++ d.new_name

/-- `Dependency::addSymlink`: push unless already present. -/
def Dependency.addSymlink (d : Dependency) (s : String) : Dependency :=
  if s ∈ d.symlinks then d else { d with symlinks := d.symlinks ++ [s] }

/-- The mutation performed on an existing registry entry `d` by
`newDep.mergeIfSameAs(d)` when the filenames agree: every symlink of the
newly constructed dependency is added to `d`. -/
def Dependency.mergeSymlinksFrom (d newDep : Dependency) : Dependency :=
  newDep.symlinks.foldl Dependency.addSymlink d

/-- The external collaborators of the program, modelled as pure responses:
`realpath` (canonicalization, `none` when it fails), `fileExists`
(tolerant existence check), `inspect` (the `otool` dependency lines for a
file, as parsed by `collectDependencies(filename, lines)`; each produced
line carries a leading tab), `lcRpaths` (the LC_RPATH entries parsed by
`collectRpaths`), `cmdOk` (whether a shell command invoked through
`systemp` exits with status 0), `userInput` (the directory eventually
accepted by the interactive prompt of `getUserInputDirForFile`),
`initPaths` (the `DYLD_*` environment search paths split on `:`),
`sysOutput` (`system_get_output`), `mkdtemp` and `tmpdirEnv` (the codesign
workaround's temp-directory machinery). -/
structure Env where
  realpath : String → Option String
  fileExists : String → Bool
  inspect : String → List String
  lcRpaths : String → List String
  cmdOk : String → Bool
  userInput : String → String
  initPaths : List String
  sysOutput : String → String
  mkdtemp : String → Option String
  tmpdirEnv : String

/-- The global mutable state of bundler.cpp.  The `std::map`s become
association lists (only lookup, insert-on-access and per-key append are
ever performed on them). -/
structure BState where
  deps : List Dependency
  deps_per_file : List (String × List Dependency)
  deps_collected : List String
  rpaths_per_file : List (String × List String)
  rpath_to_fullpath : List (String × String)
  missing_prefixes : Bool
  settings : Settings
deriving Repr, DecidableEq

/-- Association-list lookup with default (reading through `operator[]`
without mutating, or `.find` followed by a dereference). -/
def lookupD (m : List (String × α)) (k : String) (dfl : α) : α :=
  ((m.find? (fun e => e.1 = k)).map (·.2)).getD dfl

/-- Association-list lookup (`.find`). -/
def lookupA (m : List (String × α)) (k : String) : Option α :=
  (m.find? (fun e => e.1 = k)).map (·.2)

/-- Set (insert or overwrite) a key. -/
def mapSet (m : List (String × α)) (k : String) (v : α) : List (String × α) :=
  match m with
  | [] => [(k, v)]
  | e :: rest => if e.1 = k then (k, v) :: rest else e :: mapSet rest k v

/-- `std::map::operator[]` when the result is only read: insert a
default-constructed value if the key is absent. -/
def ensureKey (m : List (String × α)) (k : String) (dfl : α) :
    List (String × α) :=
  if (lookupA m k).isSome then m else m ++ [(k, dfl)]

/-- The empty global state over given settings. -/
def initState (st : Settings) : BState :=
  { deps := []
    deps_per_file := []
    deps_collected := []
    rpaths_per_file := []
    rpath_to_fullpath := []
    missing_prefixes := false
    settings := st }

/-- `getUserInputDirForFile`: first scan the existing search paths (each
normalized with a trailing slash) for one containing `filename`; failing
that, fall back to the interactive prompt.  The prompt's retry loop is an
external collaborator: `env.userInput filename` stands for the directory
the user eventually supplies and that passes the existence check (entering
`quit` instead aborts the whole process and so ends every run modelled
here).  The accepted directory is normalized and appended to the search
paths, exactly as the C++ loop does before returning. -/
def getUserInputDirForFile (env : Env) (filename : String) (s : BState) :
    String × BState :=
  match (s.settings.searchPaths.map normSlashNE).find?
      (fun sp => env.fileExists (sp ++ filename)) with
  | some sp => (sp, s)
  | none =>
    let p := normSlashNE (env.userInput filename)
    (p, { s with settings := addSearchPath s.settings p })

/-- Replace every non-overlapping occurrence of `pat` (nonempty),
scanning left to right and continuing after each replacement — the
semantics of `std::regex_replace` over the literal patterns used by
`check_path`.  The fuel is the input length; each step consumes at least
one character, so the fuel never runs out on real inputs. -/
def replaceAllL (pat rep : List Char) : Nat → List Char → List Char
  | _, [] => []
  | 0, l => l
  | Nat.succ fuel, c :: rest =>
    if pat ≠ [] ∧ pat.isPrefixOf (c :: rest) then
      rep ++ replaceAllL pat rep fuel (rest.drop (pat.length - 1))
    else c :: replaceAllL pat rep fuel rest

/-- String version of `replaceAllL`. -/
def replaceAllStr (s pat rep : String) : String :=
  ⟨replaceAllL pat.data rep.data s.data.length s.data⟩

/-- The `check_path` lambda of `searchFilenameInRpaths`.  It only ever
succeeds when the dependent file differs from the raw reference; the
candidate is rewritten by substituting the dependent file's directory for
an `@loader_path/` or `@rpath/` marker (when neither marker occurs the
rewritten candidate is the *empty* string, which never canonicalizes), and
then canonicalized with `realpath`. -/
def checkPath (env : Env) (rpath_file dependent_file p : String) :
    Option String :=
  if dependent_file ≠ rpath_file then
    let filePfx := dirnameOf dependent_file
    let ptc :=
      if strContains p "@loader_path" then
        replaceAllStr p "@loader_path/" filePfx
      else if strContains p "@rpath" then
        replaceAllStr p "@rpath/" filePfx
      else ""
    env.realpath ptc
  else none

/-- The loop of `searchFilenameInRpaths` over the dependent file's declared
LC_RPATH entries: each entry is slash-normalized, concatenated with the
suffix and tested through `check_path`; the first success wins. -/
def rpathCandLoop (env : Env) (rpath_file dependent_file suffix : String) :
    List String → Option String
  | [] => none
  | r :: rest =>
    match checkPath env rpath_file dependent_file (normSlash r ++ suffix) with
    | some fp => some fp
    | none => rpathCandLoop env rpath_file dependent_file suffix rest

/-- The cache/`check_path`/LC_RPATH stage of `searchFilenameInRpaths`:
consult the `rpath_to_fullpath` cache, then `check_path` on the raw
reference, then the dependent file's LC_RPATH entries (read through
`operator[]`, inserting an empty entry); a `check_path` success is cached
under `rpath_file`.  Returns the empty string when all three fail. -/
def sfirStep1 (env : Env) (rpath_file dependent_file : String) (s : BState) :
    String × BState :=
  match lookupA s.rpath_to_fullpath rpath_file with
  | some fp => (fp, s)
  | none =>
    match checkPath env rpath_file dependent_file rpath_file with
    | some fp =>
      (fp, { s with rpath_to_fullpath := mapSet s.rpath_to_fullpath rpath_file fp })
    | none =>
      let s' := { s with rpaths_per_file := ensureKey s.rpaths_per_file dependent_file [] }
      match rpathCandLoop env rpath_file dependent_file (stripRpathMarker rpath_file)
          (lookupD s'.rpaths_per_file dependent_file []) with
      | some fp =>
        (fp, { s' with rpath_to_fullpath := mapSet s'.rpath_to_fullpath rpath_file fp })
      | none => ("", s')

/-- The fallback stage of `searchFilenameInRpaths` when the first stage
produced no path: scan the configured search paths (first existing
candidate wins), then escalate to the interactive prompt, canonicalizing
its answer when possible. -/
def sfirFallback (env : Env) (rpath_file : String) (pr : String × BState) :
    String × BState :=
  if pr.1 ≠ "" then pr
  else
    let suffix := stripRpathMarker rpath_file
    match pr.2.settings.searchPaths.find? (fun sp => env.fileExists (sp ++ suffix)) with
    | some sp => (sp ++ suffix, pr.2)
    | none =>
      let dpr := getUserInputDirForFile env suffix pr.2
      match env.realpath (dpr.1 ++ suffix) with
      | some r => (r, dpr.2)
      | none => (dpr.1 ++ suffix, dpr.2)

/-- `searchFilenameInRpaths(rpath_file, dependent_file)`: the two stages
in sequence. -/
def searchFilenameInRpaths (env : Env) (rpath_file dependent_file : String)
    (s : BState) : String × BState :=
  sfirFallback env rpath_file (sfirStep1 env rpath_file dependent_file s)

/-- The canonicalization step at the top of `Dependency::Dependency`
(`path` is already `rtrim`med by the caller): relocatable references go
through `searchFilenameInRpaths`, others through `realpath`, and a failed
`realpath` falls back to the reference string itself.  The boolean records
whether the "Cannot resolve path" warning was printed; the step is a total
function — it never aborts the process. -/
def resolveOriginalFile (env : Env) (path dependent_file : String)
    (s : BState) : (String × Bool) × BState :=
  if isRpath path then
    (((searchFilenameInRpaths env path dependent_file s).1, false),
      (searchFilenameInRpaths env path dependent_file s).2)
  else
    match env.realpath path with
    | some r => ((r, false), s)
    | none => ((path, true), s)

/-- `initSearchPaths`: seed the search paths from the `DYLD_*` environment
variables, slash-normalizing each entry. -/
def initSearchPathsSettings (env : Env) (st : Settings) : Settings :=
  { st with searchPaths := st.searchPaths ++ env.initPaths.map normSlash }

/-- The known-location search step of `Dependency::Dependency`: when the
file is not at its computed prefix, initialize the search paths on first
use and scan them; the first search path containing the leaf filename
becomes the new prefix and sets the global `missing_prefixes` flag. -/
def mkDepLocate (env : Env) (filename pfx1 : String) (s1 : BState) :
    String × BState :=
  if pfx1 = "" || !(env.fileExists (pfx1 ++ filename)) then
    let s1' :=
      if s1.settings.searchPaths.length = 0 then
        { s1 with settings := initSearchPathsSettings env s1.settings }
      else s1
    match s1'.settings.searchPaths.find?
        (fun sp => env.fileExists (sp ++ filename)) with
    | some sp => (sp, { s1' with missing_prefixes := true })
    | none => (pfx1, s1')
  else (pfx1, s1)

/-- The interactive escalation step of `Dependency::Dependency`: when the
location is still unknown and the prefix is not ignored, set
`missing_prefixes`, prompt the user, and append the supplied directory to
the search paths. -/
def mkDepEscalate (env : Env) (filename : String) (pr : String × BState) :
    BState :=
  if !(isPrefixIgnored pr.2.settings pr.1) &&
      (pr.1 = "" || !(env.fileExists (pr.1 ++ filename))) then
    let s2' := { pr.2 with missing_prefixes := true }
    let dpr := getUserInputDirForFile env filename s2'
    { dpr.2 with settings := addSearchPath dpr.2.settings dpr.1 }
  else pr.2

/-- `Dependency::Dependency(path, dependent_file)`.  Mirrors the
constructor: trim, resolve, record the raw reference as a symlink when it
differs from the resolved file, split into directory + leaf, and — only
when the prefix is bundled — look the file up in the search paths and
finally fall back to the interactive prompt.  An early return
(non-bundled prefix) leaves `new_name` empty just as the C++ constructor
leaves the member default-constructed. -/
def mkDependency (env : Env) (path0 dependent_file : String) (s : BState) :
    Dependency × BState :=
  let path := rtrim path0
  let original_file := (resolveOriginalFile env path dependent_file s).1.1
  let s1 := (resolveOriginalFile env path dependent_file s).2
  let syms := if original_file ≠ path then [path] else []
  let filename := stripPfx original_file
  let pfx1 := normSlashNE (dirnameOf original_file)
  if !(isPrefixBundled s1.settings pfx1) then
    ({ filename := filename, pfx := pfx1, symlinks := syms, new_name := "" }, s1)
  else
    ({ filename := filename,
       pfx := (mkDepLocate env filename pfx1 s1).1,
       symlinks := syms,
       new_name := filename },
      mkDepEscalate env filename (mkDepLocate env filename pfx1 s1))

/-- `addDependency(path, filename)`.  The freshly constructed dependency is
merged (symlink union) into every registry entry with the same leaf
filename and into the per-file list — the latter is a *copy* of the map
entry, so those merges are discarded, exactly as in the C++ where
`deps_in_file` is a by-value copy.  Reading `deps_per_file[filename]`
through `operator[]` inserts an empty entry.  Only afterwards is the
bundling filter applied; a bundled dependency is appended to `deps` and to
`deps_per_file[filename]` unless an entry with the same leaf filename was
already present there. -/
def addDependency (env : Env) (path file : String) (s : BState) : BState :=
  let dep := (mkDependency env path file s).1
  let s1 := (mkDependency env path file s).2
  let in_deps := s1.deps.any (fun d => d.filename = dep.filename)
  let deps1 := s1.deps.map
    (fun d => if d.filename = dep.filename then d.mergeSymlinksFrom dep else d)
  let deps_in_file := lookupD s1.deps_per_file file []
  let in_deps_per_file := deps_in_file.any (fun d => d.filename = dep.filename)
  let s2 := { s1 with deps := deps1,
                      deps_per_file := ensureKey s1.deps_per_file file [] }
  if !(isPrefixBundled s2.settings dep.pfx) then s2
  else
    let s3 := if in_deps then s2 else { s2 with deps := s2.deps ++ [dep] }
    if in_deps_per_file then s3
    else
      { s3 with deps_per_file :=
          mapSet s3.deps_per_file file (lookupD s3.deps_per_file file [] ++ [dep]) }

/-- `collectRpaths(filename)`: skip silently when the file does not exist;
otherwise push each parsed LC_RPATH entry onto `rpaths_per_file[filename]`
(the first push creates the entry). -/
def collectRpaths (env : Env) (f : String) (s : BState) : BState :=
  if env.fileExists f then
    (env.lcRpaths f).foldl
      (fun st r =>
        { st with rpaths_per_file :=
            mapSet st.rpaths_per_file f (lookupD st.rpaths_per_file f [] ++ [r]) })
      s
  else s

/-- The per-line body of the loop in `collectDependencies(filename)`:
skip lines that do not begin with a tab, lines mentioning `.framework`,
and references in system-library locations; the rest are handed to
`addDependency`. -/
def processLine (env : Env) (f : String) (s : BState) (line : String) : BState :=
  if line.data.head? ≠ some '\t' then s
  else if strContains line ".framework" then s
  else
    let dep_path := extractPath line
    if isSystemLibrary dep_path then s
    else addDependency env dep_path f s

/-- `collectDependencies(filename)` (the inspecting overload): a no-op when
the file was already collected, otherwise collect its rpaths, process every
inspector line, and mark the file collected.  A file the inspector cannot
read makes the real program `exit(1)` before anything is recorded; the
environments modelled here return the inspector's successful output. -/
def collectDependenciesFile (env : Env) (f : String) (s : BState) : BState :=
  if f ∈ s.deps_collected then s
  else
    let s1 := collectRpaths env f s
    let s2 := (env.inspect f).foldl (processLine env f) s1
    { s2 with deps_collected := s2.deps_collected ++ [f] }

/-- The body of one iteration of the loop in `collectSubDependencies`:
resolve the entry's original path (through the rpath machinery when it is
still relocatable) and inspect it. -/
def subDepStep (env : Env) (st : BState) (d : Dependency) : BState :=
  let op := d.getOriginalPath
  let op' := if isRpath op then (searchFilenameInRpaths env op op st).1 else op
  let st' := if isRpath op then (searchFilenameInRpaths env op op st).2 else st
  collectDependenciesFile env op' st'

/-- One pass of the `while (true)` loop in `collectSubDependencies`: the
size of `deps` is snapshotted and the first `dep_amount` entries are
inspected (entries pushed during the pass have larger indices and are left
to the next pass; merges performed during the pass only change symlink
lists, never the original path read here). -/
def subDepPass (env : Env) (s : BState) : BState :=
  s.deps.foldl (subDepStep env) s

/-- `k` iterated passes of `collectSubDependencies`. -/
def iterPass (env : Env) : Nat → BState → BState
  | 0, s => s
  | Nat.succ k, s => subDepPass env (iterPass env k s)

/-- `collectSubDependencies` with explicit fuel: run passes until one adds
no new dependency (the C++ compares `deps.size()` before and after). -/
def collectSubDependenciesFuel (env : Env) : Nat → BState → BState
  | 0, s => s
  | Nat.succ k, s =>
    let s' := subDepPass env s
    if s'.deps.length = s.deps.length then s'
    else collectSubDependenciesFuel env k s'

/-- The fatal conditions (`exit(1)` sites) reachable from the planning
phase of the program. -/
inductive PErr where
  | destExists
  | copyFailed
  | chmodFailed
  | destUnavailable
  | rmFailed
  | mkdirFailed
  | installNameFailed
  | idFailed
  | signFailed
deriving Repr, DecidableEq

/-- The `rm -r` command issued by `createDestDir`. -/
def rmCmd (dest : String) : String :=
  "rm -r \"" ++ dest ++ "\""

/-- The `mkdir -p` command issued by `createDestDir`. -/
def mkdirCmd (dest : String) : String :=
  "mkdir -p \"" ++ dest ++ "\""

/-- `createDestDir`: when the destination exists and overwriting is
permitted, remove it (a failing `rm` is fatal); when it is (then) absent,
create it if permitted (a failing `mkdir` is fatal) and fail with the
"Dest folder does not exist" error otherwise.  The result is the list of
mutating commands the step runs. -/
def createDestDir (env : Env) (st : Settings) : Except PErr (List String) :=
  let dest := st.dest_folder_str
  let dest_exists := env.fileExists dest
  if dest_exists && st.overwrite_dir then
    if env.cmdOk (rmCmd dest) then
      if st.create_dir then
        if env.cmdOk (mkdirCmd dest) then .ok [rmCmd dest, mkdirCmd dest]
        else .error .mkdirFailed
      else .error .destUnavailable
    else .error .rmFailed
  else if !dest_exists then
    if st.create_dir then
      if env.cmdOk (mkdirCmd dest) then .ok [mkdirCmd dest]
      else .error .mkdirFailed
    else .error .destUnavailable
  else .ok []

/-- The `cp` command built by `copyFile`. -/
def cpCmd (ov : Bool) (f t : String) : String :=
  "cp " ++ (if ov then "-f " else "-n ") ++ "\"" ++ f ++ "\" \"" ++ t ++ "\""

/-- The `chmod +w` command built by `copyFile`. -/
def chmodCmd (t : String) : String :=
  "chmod +w \"" ++ t ++ "\""

/-- `copyFile(from, to)`: abort when the destination pre-exists without
overwrite permission — but only when source and destination differ; run
`cp` (fatal on failure) only when they differ; always run `chmod +w`
(fatal on failure).  Returns the commands executed. -/
def copyFilePlan (env : Env) (st : Settings) (f t : String) :
    Except PErr (List String) :=
  if f ≠ t && !st.overwrite_files && env.fileExists t then .error .destExists
  else if f ≠ t && !(env.cmdOk (cpCmd st.overwrite_files f t)) then .error .copyFailed
  else if env.cmdOk (chmodCmd t) then
    .ok ((if f ≠ t then [cpCmd st.overwrite_files f t] else []) ++ [chmodCmd t])
  else .error .chmodFailed

/-- The `install_name_tool -change` command of `changeInstallName`. -/
def changeInstallNameCmd (binary_file old_name new_name : String) : String :=
  "install_name_tool -change \"" ++ old_name ++ "\" \"" ++ new_name ++ "\" \""
    ++ binary_file ++ "\""

/-- The `install_name_tool -id` command of `Dependency::copyYourself`. -/
def idCmd (inner install : String) : String :=
  "install_name_tool -id \"" ++ inner ++ "\" \"" ++ install ++ "\""

/-- The `install_name_tool -rpath` command of `fixRpathsOnFile`. -/
def rpathFixCmd (old inside file : String) : String :=
  "install_name_tool -rpath \"" ++ old ++ "\" \"" ++ inside ++ "\" \"" ++ file ++ "\""

/-- The codesign command of `adhocCodeSign`. -/
def signCmd (file : String) : String :=
  "codesign --force --deep --preserve-metadata=entitlements,requirements,flags,runtime --sign - \""
    ++ file ++ "\""

/-- `Dependency::fixFileThatDependsOnMe(file_to_fix)` as the list of
rewrite commands it issues: the canonical original path, then every
recorded symlink alias; when the global `missing_prefixes` flag is set, a
rewrite keyed on the bare leaf filename is additionally attempted and the
symlink aliases are attempted a second time. -/
def fixFileCmds (missing : Bool) (st : Settings) (d : Dependency)
    (file_to_fix : String) : List String :=
  [changeInstallNameCmd file_to_fix d.getOriginalPath (d.getInnerPath st)]
  ++ d.symlinks.map (fun sl => changeInstallNameCmd file_to_fix sl (d.getInnerPath st))
  ++ (if missing then
        [changeInstallNameCmd file_to_fix d.filename (d.getInnerPath st)]
        ++ d.symlinks.map (fun sl => changeInstallNameCmd file_to_fix sl (d.getInnerPath st))
      else [])

/-- `changeLibPathsOnFile(file_to_fix)`: collect the file's dependencies if
not yet collected, then run every rewrite command of every dependency
recorded for the file (reading `deps_per_file[file_to_fix]` through
`operator[]`).  A failing `install_name_tool -change` makes
`changeInstallName` exit; the model reports which commands were planned on
success and an error as soon as the batch contains a failing one. -/
def changeLibPathsOnFilePlan (env : Env) (file_to_fix : String) (s : BState) :
    Except PErr (List String × BState) :=
  let s1 := collectDependenciesFile env file_to_fix s
  let deps_in_file := lookupD s1.deps_per_file file_to_fix []
  let cmds := (deps_in_file.map
    (fun d => fixFileCmds s1.missing_prefixes s1.settings d file_to_fix)).flatten
  let s2 := { s1 with deps_per_file := ensureKey s1.deps_per_file file_to_fix [] }
  if cmds.all env.cmdOk then .ok (cmds, s2) else .error .installNameFailed

/-- `fixRpathsOnFile(original_file, file_to_fix)`: one `-rpath` rewrite per
LC_RPATH entry recorded for the original file (looked up with `.find`, no
entry is created); a failing rewrite only warns, it is not fatal. -/
def fixRpathsOnFilePlan (st : Settings) (s : BState)
    (original_file file_to_fix : String) : List String :=
  (lookupD s.rpaths_per_file original_file []).map
    (fun r => rpathFixCmd r st.inside_path_str file_to_fix)

/-- `Dependency::copyYourself`: copy to the destination, then rewrite the
copy's own identity (fatal on failure). -/
def copyYourselfPlan (env : Env) (st : Settings) (d : Dependency) :
    Except PErr (List String) :=
  match copyFilePlan env st d.getOriginalPath (d.getInstallPath st) with
  | .error e => .error e
  | .ok cmds =>
    let c := idCmd (d.getInnerPath st) (d.getInstallPath st)
    if env.cmdOk c then .ok (cmds ++ [c]) else .error .idFailed

/-- `adhocCodeSign(file)`: nothing when codesigning is disabled; otherwise
the codesign command, and on its failure the copy-to-temp/move-back/retry
workaround, whose own failures are fatal only on ARM machines (the
workaround being unable to even create its temp directory is modelled as
fatal: on ARM the program exits, elsewhere it dereferences a null
`mkdtemp` result). -/
def adhocCodeSignPlan (env : Env) (st : Settings) (file : String) :
    Except PErr (List String) :=
  if !st.codesign then .ok []
  else if env.cmdOk (signCmd file) then .ok [signCmd file]
  else
    let machine := env.sysOutput "machine"
    let isArm := strContains machine "arm"
    match env.mkdtemp (env.tmpdirEnv ++ "dylibbundler.XXXXXXXX") with
    | none => .error .signFailed
    | some tmpDir =>
      let tmpFile := tmpDir ++ "/" ++ stripPfx file
      let c1 := "cp -p \"" ++ file ++ "\" \"" ++ tmpFile ++ "\""
      let c2 := "mv -f \"" ++ tmpFile ++ "\" \"" ++ file ++ "\""
      let c3 := "rm -rf \"" ++ tmpDir ++ "\""
      if isArm && !(env.cmdOk c1) then .error .signFailed
      else if isArm && !(env.cmdOk c2) then .error .signFailed
      else if isArm && !(env.cmdOk (signCmd file)) then .error .signFailed
      else .ok [signCmd file, c1, c2, c3, signCmd file]

/-- The per-dependency body of the bundling loop in `doneWithDeps_go`:
copy, fix the installed copy's library paths, fix its rpaths, re-sign. -/
def depProcessPlan (env : Env) (s : BState) (d : Dependency) :
    Except PErr (List String × BState) :=
  match copyYourselfPlan env s.settings d with
  | .error e => .error e
  | .ok c1 =>
    match changeLibPathsOnFilePlan env (d.getInstallPath s.settings) s with
    | .error e => .error e
    | .ok (c2, s2) =>
      let c3 := fixRpathsOnFilePlan s2.settings s2 d.getOriginalPath
        (d.getInstallPath s2.settings)
      match adhocCodeSignPlan env s2.settings (d.getInstallPath s2.settings) with
      | .error e => .error e
      | .ok c4 => .ok (c1 ++ c2 ++ c3 ++ c4, s2)

/-- The bundling loop of `doneWithDeps_go`, iterating indices from
`dep_amount - 1` down to `0` over the *live* `deps` vector (entries pushed
during the loop sit at larger indices and are not processed; symlink merges
performed during the loop are observed). -/
def depsLoopPlan (env : Env) : Nat → BState → Except PErr (List String × BState)
  | 0, s => .ok ([], s)
  | Nat.succ n, s =>
    let d := s.deps.getD n ⟨"", "", [], ""⟩
    match depProcessPlan env s d with
    | .error e => .error e
    | .ok (cmds, s') =>
      match depsLoopPlan env n s' with
      | .error e => .error e
      | .ok (cmds', s'') => .ok (cmds ++ cmds', s'')

/-- The per-file body of the final loop in `doneWithDeps_go`: self-copy
(to gain write permission), rewrite references, rewrite rpaths, re-sign. -/
def fileProcessPlan (env : Env) (s : BState) (f : String) :
    Except PErr (List String × BState) :=
  match copyFilePlan env s.settings f f with
  | .error e => .error e
  | .ok c1 =>
    match changeLibPathsOnFilePlan env f s with
    | .error e => .error e
    | .ok (c2, s2) =>
      let c3 := fixRpathsOnFilePlan s2.settings s2 f f
      match adhocCodeSignPlan env s2.settings f with
      | .error e => .error e
      | .ok c4 => .ok (c1 ++ c2 ++ c3 ++ c4, s2)

/-- The final loop of `doneWithDeps_go`, iterating the configured files to
fix in reverse configuration order. -/
def filesLoopPlan (env : Env) : Nat → BState → Except PErr (List String × BState)
  | 0, s => .ok ([], s)
  | Nat.succ n, s =>
    let f := s.settings.files.getD n ""
    match fileProcessPlan env s f with
    | .error e => .error e
    | .ok (cmds, s') =>
      match filesLoopPlan env n s' with
      | .error e => .error e
      | .ok (cmds', s'') => .ok (cmds ++ cmds', s'')

/-- `doneWithDeps_go`: when bundling is enabled, prepare the destination
directory and process every dependency in reverse discovery order; then
process every file to fix in reverse configuration order.  The result is
the full ordered list of mutating shell commands (the planned operations)
together with the final state. -/
def doneWithDepsPlan (env : Env) (s : BState) :
    Except PErr (List String × BState) :=
  let part1 : Except PErr (List String × BState) :=
    if s.settings.bundleLibs_bool then
      match createDestDir env s.settings with
      | .error e => .error e
      | .ok dirCmds =>
        match depsLoopPlan env s.deps.length s with
        | .error e => .error e
        | .ok (c, s') => .ok (dirCmds ++ c, s')
    else .ok ([], s)
  match part1 with
  | .error e => .error e
  | .ok (c1, s1) =>
    match filesLoopPlan env s1.settings.files.length s1 with
    | .error e => .error e
    | .ok (c2, s2) => .ok (c1 ++ c2, s2)

/-- A collaborator environment where nothing exists, inspection reports no
dependencies, and every shell command succeeds. -/
def trivEnv : Env :=
  { realpath := fun _ => none
    fileExists := fun _ => false
    inspect := fun _ => []
    lcRpaths := fun _ => []
    cmdOk := fun _ => true
    userInput := fun _ => "/x/"
    initPaths := []
    sysOutput := fun _ => ""
    mkdtemp := fun _ => none
    tmpdirEnv := "/tmp/" }

/-- An environment whose filesystem reports every path as existing. -/
def envAllExists : Env := { trivEnv with fileExists := fun _ => true }

/-- An environment with one real file `/custom/ignored/sub/libB.dylib`
sitting in a subdirectory of an ignored location. -/
def envC4 : Env :=
  { trivEnv with
    realpath := fun p =>
      if p = "/custom/ignored/sub/libB.dylib" then some p else none
    fileExists := fun p => decide (p = "/custom/ignored/sub/libB.dylib") }

/-- Settings where `/custom/ignored/` was configured as an ignored
location. -/
def settingsC4 : Settings := ignorePrefixSetting defaultSettings "/custom/ignored/"

/-- An environment with one real file `/custom/ignored/libA.dylib` directly
inside the ignored location. -/
def envC4w : Env :=
  { trivEnv with
    realpath := fun p =>
      if p = "/custom/ignored/libA.dylib" then some p else none
    fileExists := fun p => decide (p = "/custom/ignored/libA.dylib") }

/-- An inspector whose only answer for `/app/prog` is a single
system-library reference line. -/
def envC6 : Env :=
  { trivEnv with
    inspect := fun f =>
      if f = "/app/prog" then
        ["\t/usr/lib/libSystem.B.dylib (compatibility version 1.0.0)"]
      else [] }

/-- An environment where `/sym/libX.dylib` is a symlink to the real file
`/real/libX.dylib`. -/
def envC1 : Env :=
  { trivEnv with
    realpath := fun p =>
      if p = "/sym/libX.dylib" || p = "/real/libX.dylib" then
        some "/real/libX.dylib"
      else none
    fileExists := fun p => decide (p = "/real/libX.dylib") }

/-- A registry state for exercising the degraded missing-prefix rewrite:
one inspected file `/f` that references one dependency. -/
def sW : BState :=
  { initState defaultSettings with
    missing_prefixes := true
    deps_collected := ["/f"]
    deps_per_file := [("/f", [⟨"libX.dylib", "/opt/", [], "libX.dylib"⟩])] }

/-- An environment exercising both search-list tie-breaks: one existing
dylib under `/real/` and one resolvable `@loader_path` rewrite. -/
def envC7 : Env :=
  { trivEnv with
    realpath := fun p =>
      if p = "/app/../lib/libY.dylib" then some "/lib/libY.dylib" else none
    fileExists := fun p => decide (p = "/real/libX.dylib") }

/-- Auxiliary: last element of a list is a member. -/
theorem getLast?_mem' {α : Type} {l : List α} {a : α}
    (h : l.getLast? = some a) : a ∈ l := by
  induction l with
  | nil => simp at h
  | cons x xs ih =>
    cases xs with
    | nil => simp at h; simp [h]
    | cons y ys =>
      rw [List.getLast?_cons_cons] at h
      exact List.mem_cons_of_mem x (ih h)

/-- Auxiliary: fold preservation of a state predicate. -/
theorem foldlPreserve {α β : Type} (P : β → Prop) (g : β → α → β)
    (h : ∀ st x, P st → P (g st x)) :
    ∀ (l : List α) (st : β), P st → P (l.foldl g st) := by
  intro l
  induction l with
  | nil => intro st hst; exact hst
  | cons x xs ih => intro st hst; exact ih (g st x) (h st x hst)

/-- `strContains` decides list infixhood of the character data. -/
theorem strContains_iff (s p : String) :
    strContains s p = true ↔ p.data <:+: s.data := by
  unfold strContains
  rw [List.any_eq_true]
  constructor
  · rintro ⟨t, ht, hp⟩
    exact List.infix_iff_prefix_suffix.mpr
      ⟨t, List.isPrefixOf_iff_prefix.mp hp, (List.mem_tails _ _).mp ht⟩
  · intro h
    obtain ⟨t, h1, h2⟩ := List.infix_iff_prefix_suffix.mp h
    exact ⟨t, (List.mem_tails _ _).mpr h2, List.isPrefixOf_iff_prefix.mpr h1⟩

/-- The extracted dependency path is carved out of the raw line. -/
theorem extractPath_within (line : String) :
    (extractPath line).data <:+: line.data := by
  unfold extractPath
  have hdrop : (line.data.drop 1) <:+: line.data :=
    (List.drop_suffix 1 line.data).isInfix
  cases h : rfindSub line " (" with
  | none => exact hdrop
  | some i =>
    by_cases hi : i = 0
    · simp only [hi, if_pos rfl]
      exact hdrop
    · simp only [if_neg hi]
      exact ((List.take_prefix (i - 1) (line.data.drop 1)).isInfix).trans hdrop

/-- A pattern occurring in the extracted path occurs in the raw line. -/
theorem strContains_extract {line p : String}
    (h : strContains (extractPath line) p = true) :
    strContains line p = true :=
  (strContains_iff line p).mpr
    (((strContains_iff (extractPath line) p).mp h).trans (extractPath_within line))

/-- `rfindSub` really points at an occurrence of the pattern. -/
theorem rfindSub_spec {s pat : String} {i : Nat}
    (h : rfindSub s pat = some i) :
    pat.data.isPrefixOf (s.data.drop i) = true := by
  unfold rfindSub at h
  exact (List.mem_filter.mp (getLast?_mem' h)).2

/-- Splitting at the last slash reassembles the original string. -/
theorem dirnameOf_append_strip (s : String) :
    dirnameOf s ++ stripPfx s = s := by
  unfold dirnameOf stripPfx
  cases h : rfindSub s "/" with
  | none =>
    apply String.ext
    simp [String.data_append]
  | some i =>
    apply String.ext
    simp [String.data_append]

/-- A nonempty directory part ends with a slash. -/
theorem endsSlash_dirnameOf {s : String} (h : dirnameOf s ≠ "") :
    endsSlash (dirnameOf s) = true := by
  unfold dirnameOf at *
  cases hf : rfindSub s "/" with
  | none => simp [hf] at h
  | some i =>
    have hp := rfindSub_spec hf
    have hpre : ['/'] <+: s.data.drop i := by
      have := List.isPrefixOf_iff_prefix.mp hp
      simpa using this
    obtain ⟨t, ht⟩ := hpre
    have hget : s.data[i]? = some '/' := by
      have h0 : (s.data.drop i)[0]? = some '/' := by
        rw [← ht]; simp
      rw [List.getElem?_drop] at h0
      simpa using h0
    have htake : s.data.take (i + 1) = s.data.take i ++ ['/'] := by
      rw [List.take_succ, hget]
      rfl
    simp only [hf]
    unfold endsSlash
    simp [htake, List.getLast?_concat]

/-- The slash-guarded normalization fixes nonempty slash-terminated
strings. -/
theorem normSlashNE_of_endsSlash {s : String} (h : endsSlash s = true) :
    normSlashNE s = s := by
  unfold normSlashNE
  simp [h]

/-- An ignored prefix is never bundled. -/
theorem not_bundled_of_ignored {st : Settings} {p : String}
    (h : isPrefixIgnored st p = true) : isPrefixBundled st p = false := by
  unfold isPrefixBundled
  simp [h]

/-- C2.  The destination-preparation step of `doneWithDeps_go`:
an existing destination without overwrite permission is *accepted* with
zero mutating commands; a missing destination without create permission is
the fatal "Dest folder does not exist" condition; removal happens exactly
when the directory exists and overwriting is permitted, creation exactly
when the directory is (then) absent and creation is permitted. -/
theorem c2_createDestDir_policy (env : Env) (st : Settings) :
    (env.fileExists st.dest_folder_str = true → st.overwrite_dir = false →
      createDestDir env st = .ok []) ∧
    (env.fileExists st.dest_folder_str = false → st.create_dir = false →
      createDestDir env st = .error .destUnavailable) ∧
    (env.fileExists st.dest_folder_str = true → st.overwrite_dir = true →
      env.cmdOk (rmCmd st.dest_folder_str) = true → st.create_dir = false →
      createDestDir env st = .error .destUnavailable) ∧
    (env.fileExists st.dest_folder_str = true → st.overwrite_dir = true →
      env.cmdOk (rmCmd st.dest_folder_str) = true → st.create_dir = true →
      env.cmdOk (mkdirCmd st.dest_folder_str) = true →
      createDestDir env st = .ok [rmCmd st.dest_folder_str, mkdirCmd st.dest_folder_str]) ∧
    (env.fileExists st.dest_folder_str = false → st.create_dir = true →
      env.cmdOk (mkdirCmd st.dest_folder_str) = true →
      createDestDir env st = .ok [mkdirCmd st.dest_folder_str]) := by
  refine ⟨?_, ?_, ?_, ?_, ?_⟩ <;>
    · intros
      unfold createDestDir
      simp_all

/-- C2 counterexample to the claim as stated: with the destination
existing, `overwriteDirectory = false` and `createDirectory = false`,
`createDestDir` succeeds with zero mutating commands instead of failing
fatally. -/
theorem c2_counterexample :
    createDestDir envAllExists defaultSettings = .ok [] ∧
    createDestDir envAllExists defaultSettings ≠ .error .destUnavailable := by
  constructor
  · rfl
  · intro h
    simp [createDestDir, envAllExists, trivEnv, defaultSettings] at h

/-- C2 witness: the amended policy evaluated at concrete configurations. -/
theorem c2_witness :
    createDestDir envAllExists defaultSettings = .ok [] ∧
    createDestDir trivEnv defaultSettings = .error .destUnavailable := by
  constructor
  · exact (c2_createDestDir_policy envAllExists defaultSettings).1 rfl rfl
  · exact (c2_createDestDir_policy trivEnv defaultSettings).2.1 rfl rfl

/-- C10.  `copyFile(from, to)` with `from = to` skips both the
pre-existing-destination abort and the `cp` invocation — only the
`chmod +w` permission fix runs, whatever the overwrite-files setting and
whatever already exists on disk; and the pre-existing-destination abort
happens exactly when source and destination differ, the destination
exists, and overwriting files is disabled. -/
theorem c10_copyFile_self (env : Env) (st : Settings) (f : String) :
    (copyFilePlan env st f f =
      if env.cmdOk (chmodCmd f) then .ok [chmodCmd f] else .error .chmodFailed) ∧
    (∀ a b : String,
      copyFilePlan env st a b = .error .destExists ↔
        (a ≠ b ∧ st.overwrite_files = false ∧ env.fileExists b = true)) := by
  constructor
  · by_cases h : env.cmdOk (chmodCmd f) <;> simp [copyFilePlan, h]
  · intro a b
    constructor
    · intro h
      unfold copyFilePlan at h
      split at h
      · next hc =>
        simp only [Bool.and_eq_true, decide_eq_true_eq, Bool.not_eq_true'] at hc
        exact ⟨hc.1.1, hc.1.2, hc.2⟩
      · split at h
        · simp at h
        · split at h <;> simp at h
    · rintro ⟨h1, h2, h3⟩
      unfold copyFilePlan
      simp [h1, h2, h3]

/-- C8.  A non-relocatable reference (no `@rpath`/`@loader_path` marker)
whose direct canonicalization fails is resolved to the reference string
itself, with the "Cannot resolve path" warning emitted and no state
change; the step is a total function — it has no fatal exit. -/
theorem c8_literal_fallback (env : Env) (path dependent_file : String)
    (s : BState) (h1 : isRpath path = false)
    (h2 : env.realpath path = none) :
    resolveOriginalFile env path dependent_file s = ((path, true), s) := by
  unfold resolveOriginalFile
  simp [h1, h2]

/-- C8 witness: concrete missing file. -/
theorem c8_witness :
    resolveOriginalFile trivEnv "/missing/libZ.dylib" "/app/a"
        (initState defaultSettings)
      = (("/missing/libZ.dylib", true), initState defaultSettings) :=
  c8_literal_fallback _ _ _ _ (by decide) rfl

/-- C3.  A reference line whose extracted dependency path is a
system-library path (`/usr/lib/` or `/System/Library/` prefix) or contains
`.framework` leaves the entire collection state unchanged — such
references are never added to `deps`, however many files mention them; in
particular any line extracting to `/usr/lib/libSystem.B.dylib` is
filtered. -/
theorem c3_system_refs_never_added :
    (∀ (env : Env) (f : String) (s : BState) (line : String),
      isSystemLibrary (extractPath line) = true ∨
        strContains (extractPath line) ".framework" = true →
      processLine env f s line = s) ∧
    (∀ (env : Env) (f : String) (s : BState) (line : String),
      extractPath line = "/usr/lib/libSystem.B.dylib" →
      processLine env f s line = s) := by
  have main : ∀ (env : Env) (f : String) (s : BState) (line : String),
      isSystemLibrary (extractPath line) = true ∨
        strContains (extractPath line) ".framework" = true →
      processLine env f s line = s := by
    intro env f s line h
    unfold processLine
    split
    · rfl
    · split
      · rfl
      · next hfw =>
        rcases h with h | h
        · simp [h]
        · exact absurd (strContains_extract h) hfw
  exact ⟨main, fun env f s line h =>
    main env f s line (Or.inl (by rw [h]; decide))⟩

/-- C3 witness: the canonical `libSystem` line leaves a concrete state
untouched. -/
theorem c3_witness :
    processLine trivEnv "/app/prog" (initState defaultSettings)
        "\t/usr/lib/libSystem.B.dylib (compatibility version 1.0.0)"
      = initState defaultSettings :=
  c3_system_refs_never_added.2 _ _ _ _ (by decide)

/-- Symlink merging never changes the identifying fields of an entry. -/
theorem mergeSymlinksFrom_fields (d n : Dependency) :
    (d.mergeSymlinksFrom n).filename = d.filename ∧
    (d.mergeSymlinksFrom n).pfx = d.pfx ∧
    (d.mergeSymlinksFrom n).new_name = d.new_name := by
  unfold Dependency.mergeSymlinksFrom
  suffices h : ∀ (l : List String) (d : Dependency),
      (l.foldl Dependency.addSymlink d).filename = d.filename ∧
      (l.foldl Dependency.addSymlink d).pfx = d.pfx ∧
      (l.foldl Dependency.addSymlink d).new_name = d.new_name from
    h n.symlinks d
  intro l
  induction l with
  | nil => intro d; exact ⟨rfl, rfl, rfl⟩
  | cons x xs ih =>
    intro d
    have hx : (d.addSymlink x).filename = d.filename ∧
        (d.addSymlink x).pfx = d.pfx ∧
        (d.addSymlink x).new_name = d.new_name := by
      unfold Dependency.addSymlink
      split <;> simp
    obtain ⟨h1, h2, h3⟩ := ih (d.addSymlink x)
    exact ⟨h1.trans hx.1, h2.trans hx.2.1, h3.trans hx.2.2⟩

/-- Projection form of the merge-preservation lemma. -/
theorem mergeSymlinksFrom_filename (d n : Dependency) :
    (d.mergeSymlinksFrom n).filename = d.filename :=
  (mergeSymlinksFrom_fields d n).1

/-- Projection form of the merge-preservation lemma. -/
theorem mergeSymlinksFrom_pfx (d n : Dependency) :
    (d.mergeSymlinksFrom n).pfx = d.pfx :=
  (mergeSymlinksFrom_fields d n).2.1

/-- Projection form of the merge-preservation lemma. -/
theorem mergeSymlinksFrom_new_name (d n : Dependency) :
    (d.mergeSymlinksFrom n).new_name = d.new_name :=
  (mergeSymlinksFrom_fields d n).2.2

/-- C4 counterexample to the claim as stated: with `/custom/ignored/`
configured as an ignored prefix, a reference resolving into the
*subdirectory* `/custom/ignored/sub/` is added to the dependency list all
the same, because `isPrefixIgnored` is an exact string comparison. -/
theorem c4_counterexample :
    ((addDependency envC4 "/custom/ignored/sub/libB.dylib" "/app/main"
        (initState settingsC4)).deps.map Dependency.getOriginalPath
      = ["/custom/ignored/sub/libB.dylib"]) ∧
    isPrefixIgnored settingsC4 "/custom/ignored/sub/" = false ∧
    isPrefixIgnored settingsC4 "/custom/ignored/" = true := by
  refine ⟨by decide, by decide, by decide⟩

/-- C4 amended.  A reference whose resolved directory *exactly equals* an
ignored prefix is excluded from bundling: `addDependency` leaves the
dependency list unchanged up to symlink merging (same length, same
identifying fields); references resolving to subdirectories of an ignored
prefix are not excluded (see the counterexample). -/
theorem c4_ignored_exact_match (env : Env) (path file canon : String)
    (s : BState)
    (ht : rtrim path = path)
    (hrp : isRpath path = false)
    (hreal : env.realpath path = some canon)
    (hig : isPrefixIgnored s.settings (normSlashNE (dirnameOf canon)) = true) :
    ((addDependency env path file s).deps.map
        (fun d => (d.filename, d.pfx, d.new_name))
      = s.deps.map (fun d => (d.filename, d.pfx, d.new_name))) ∧
    (addDependency env path file s).deps.length = s.deps.length := by
  have hb : isPrefixBundled s.settings (normSlashNE (dirnameOf canon)) = false :=
    not_bundled_of_ignored hig
  have hmk : mkDependency env path file s =
      ({ filename := stripPfx canon,
         pfx := normSlashNE (dirnameOf canon),
         symlinks := if canon ≠ path then [path] else [],
         new_name := "" }, s) := by
    unfold mkDependency resolveOriginalFile
    rw [ht]
    simp [hrp, hreal, hb]
  have key : (addDependency env path file s).deps =
      s.deps.map (fun d =>
        if d.filename = stripPfx canon then
          d.mergeSymlinksFrom
            { filename := stripPfx canon,
              pfx := normSlashNE (dirnameOf canon),
              symlinks := if canon ≠ path then [path] else [],
              new_name := "" }
        else d) := by
    unfold addDependency
    rw [hmk]
    simp [hb]
  constructor
  · rw [key, List.map_map]
    apply List.map_congr_left
    intro d _
    by_cases hd : d.filename = stripPfx canon
    · simp [Function.comp, hd, mergeSymlinksFrom_filename,
        mergeSymlinksFrom_pfx, mergeSymlinksFrom_new_name]
    · simp [Function.comp, hd]
  · rw [key, List.length_map]

/-- C4 witness: a file directly inside the ignored location is excluded. -/
theorem c4_witness :
    ((addDependency envC4w "/custom/ignored/libA.dylib" "/app/main"
        (initState settingsC4)).deps.map
        (fun d => (d.filename, d.pfx, d.new_name)) = []) ∧
    (addDependency envC4w "/custom/ignored/libA.dylib" "/app/main"
        (initState settingsC4)).deps.length = 0 :=
  c4_ignored_exact_match envC4w "/custom/ignored/libA.dylib" "/app/main"
    "/custom/ignored/libA.dylib" (initState settingsC4)
    (by decide) (by decide) (by decide) (by decide)

/-- `lookupD` reads through `lookupA`. -/
theorem lookupD_eq_getD {α : Type} (m : List (String × α)) (k : String)
    (dfl : α) : lookupD m k dfl = (lookupA m k).getD dfl := rfl

/-- Unfolding lookup one entry at a time. -/
theorem lookupA_cons {α : Type} (e : String × α) (rest : List (String × α))
    (g : String) :
    lookupA (e :: rest) g = if e.1 = g then some e.2 else lookupA rest g := by
  by_cases h : e.1 = g <;> simp [lookupA, List.find?, h]

/-- Lookup in an association-list append. -/
theorem lookupA_append {α : Type} (m₁ m₂ : List (String × α)) (g : String) :
    lookupA (m₁ ++ m₂) g = (lookupA m₁ g).orElse (fun _ => lookupA m₂ g) := by
  induction m₁ with
  | nil => simp [lookupA]
  | cons e rest ih =>
    rw [List.cons_append, lookupA_cons, lookupA_cons]
    by_cases h : e.1 = g <;> simp [h, ih]

/-- A key found after the insert-on-access of `operator[]` was either
already present or is the accessed key. -/
theorem lookupA_ensureKey_isSome {α : Type} {m : List (String × α)}
    {k g : String} {v : α}
    (h : (lookupA (ensureKey m k v) g).isSome = true) :
    (lookupA m g).isSome = true ∨ g = k := by
  unfold ensureKey at h
  split at h
  · exact Or.inl h
  · rw [lookupA_append] at h
    cases hm : lookupA m g with
    | some w => exact Or.inl (by simp [hm])
    | none =>
      rw [hm] at h
      by_cases hg : g = k
      · exact Or.inr hg
      · rw [show (none : Option α).orElse (fun _ => lookupA [(k, v)] g)
              = lookupA [(k, v)] g from rfl, lookupA_cons] at h
        rw [if_neg (show ¬ (k, v).1 = g from fun h2 => hg h2.symm)] at h
        simp [lookupA] at h

/-- Lookup after a `mapSet`. -/
theorem lookupA_mapSet {α : Type} (m : List (String × α)) (k g : String)
    (v : α) :
    lookupA (mapSet m k v) g = if g = k then some v else lookupA m g := by
  induction m with
  | nil =>
    unfold mapSet
    rw [lookupA_cons]
    by_cases h : g = k
    · simp [h]
    · rw [if_neg (show ¬ (k, v).1 = g from fun h2 => h h2.symm), if_neg h]
  | cons e rest ih =>
    unfold mapSet
    by_cases he : e.1 = k
    · simp only [if_pos he]
      rw [lookupA_cons, lookupA_cons]
      by_cases hg : g = k
      · simp [hg]
      · rw [if_neg (show ¬ (k, v).1 = g from fun h2 => hg h2.symm),
          if_neg hg,
          if_neg (show ¬ e.1 = g from fun h2 => hg (he.symm.trans h2).symm)]
    · simp only [if_neg he]
      rw [lookupA_cons, lookupA_cons]
      by_cases h2 : e.1 = g
      · have hgk : ¬ g = k := fun hgk => he (h2.trans hgk)
        simp [h2, hgk]
      · simp [h2, ih]

/-- `operator[]`-style access does not change the value read back for the
accessed key. -/
theorem lookupD_ensureKey_self {α : Type} (m : List (String × α))
    (k : String) (dfl : α) :
    lookupD (ensureKey m k dfl) k dfl = lookupD m k dfl := by
  unfold ensureKey
  split
  · rfl
  · next hnone =>
    rw [lookupD_eq_getD, lookupD_eq_getD, lookupA_append]
    cases hm : lookupA m k with
    | some w => simp [hm] at hnone
    | none =>
      rw [lookupA_cons]
      simp [lookupA]

/-- `getUserInputDirForFile` only ever grows the search-path list. -/
theorem getUserInput_state (env : Env) (n : String) (s : BState) :
    ((getUserInputDirForFile env n s).2.deps = s.deps) ∧
    ((getUserInputDirForFile env n s).2.deps_per_file = s.deps_per_file) ∧
    ((getUserInputDirForFile env n s).2.deps_collected = s.deps_collected) ∧
    ((getUserInputDirForFile env n s).2.missing_prefixes = s.missing_prefixes) ∧
    ((getUserInputDirForFile env n s).2.rpaths_per_file = s.rpaths_per_file) ∧
    ((getUserInputDirForFile env n s).2.rpath_to_fullpath = s.rpath_to_fullpath) := by
  unfold getUserInputDirForFile
  split <;> simp [addSearchPath]


/-- The first resolution stage only touches the rpath caches. -/
theorem sfirStep1_state (env : Env) (a b : String) (s : BState) :
    ((sfirStep1 env a b s).2.deps = s.deps) ∧
    ((sfirStep1 env a b s).2.deps_per_file = s.deps_per_file) ∧
    ((sfirStep1 env a b s).2.deps_collected = s.deps_collected) ∧
    ((sfirStep1 env a b s).2.missing_prefixes = s.missing_prefixes) ∧
    ((sfirStep1 env a b s).2.settings = s.settings) := by
  unfold sfirStep1
  cases h1 : lookupA s.rpath_to_fullpath a with
  | some fp => exact ⟨rfl, rfl, rfl, rfl, rfl⟩
  | none =>
    cases h2 : checkPath env a b a with
    | some fp => exact ⟨rfl, rfl, rfl, rfl, rfl⟩
    | none =>
      dsimp only
      cases h3 : rpathCandLoop env a b (stripRpathMarker a)
          (lookupD (ensureKey s.rpaths_per_file b []) b []) with
      | some fp => exact ⟨rfl, rfl, rfl, rfl, rfl⟩
      | none => exact ⟨rfl, rfl, rfl, rfl, rfl⟩

/-- The fallback stage only touches the search paths. -/
theorem sfirFallback_state (env : Env) (a : String) (pr : String × BState) :
    ((sfirFallback env a pr).2.deps = pr.2.deps) ∧
    ((sfirFallback env a pr).2.deps_per_file = pr.2.deps_per_file) ∧
    ((sfirFallback env a pr).2.deps_collected = pr.2.deps_collected) ∧
    ((sfirFallback env a pr).2.missing_prefixes = pr.2.missing_prefixes) := by
  have hu := getUserInput_state env (stripRpathMarker a) pr.2
  unfold sfirFallback
  by_cases h1 : pr.1 ≠ ""
  · rw [if_pos h1]
    exact ⟨rfl, rfl, rfl, rfl⟩
  · rw [if_neg h1]
    dsimp only
    cases h2 : pr.2.settings.searchPaths.find?
        (fun sp => env.fileExists (sp ++ stripRpathMarker a)) with
    | some sp => exact ⟨rfl, rfl, rfl, rfl⟩
    | none =>
      cases h3 : env.realpath
          ((getUserInputDirForFile env (stripRpathMarker a) pr.2).1
            ++ stripRpathMarker a) with
      | some r => exact ⟨hu.1, hu.2.1, hu.2.2.1, hu.2.2.2.1⟩
      | none => exact ⟨hu.1, hu.2.1, hu.2.2.1, hu.2.2.2.1⟩

/-- `searchFilenameInRpaths` never touches the dependency registry, the
per-file dependency index, the collected set or the missing-prefix flag. -/
theorem sfir_state (env : Env) (a b : String) (s : BState) :
    ((searchFilenameInRpaths env a b s).2.deps = s.deps) ∧
    ((searchFilenameInRpaths env a b s).2.deps_per_file = s.deps_per_file) ∧
    ((searchFilenameInRpaths env a b s).2.deps_collected = s.deps_collected) ∧
    ((searchFilenameInRpaths env a b s).2.missing_prefixes = s.missing_prefixes) := by
  have h1 := sfirStep1_state env a b s
  have h2 := sfirFallback_state env a (sfirStep1 env a b s)
  unfold searchFilenameInRpaths
  exact ⟨h2.1.trans h1.1, h2.2.1.trans h1.2.1,
    h2.2.2.1.trans h1.2.2.1, h2.2.2.2.trans h1.2.2.2.1⟩

/-- The canonicalization step never touches the graph state fields. -/
theorem resolveOriginalFile_state (env : Env) (p f : String) (s : BState) :
    ((resolveOriginalFile env p f s).2.deps = s.deps) ∧
    ((resolveOriginalFile env p f s).2.deps_per_file = s.deps_per_file) ∧
    ((resolveOriginalFile env p f s).2.deps_collected = s.deps_collected) ∧
    ((resolveOriginalFile env p f s).2.missing_prefixes = s.missing_prefixes) := by
  unfold resolveOriginalFile
  by_cases h : isRpath p = true
  · simp only [h, if_true]
    exact sfir_state env p f s
  · simp only [Bool.not_eq_true] at h
    simp only [h, Bool.false_eq_true, if_false]
    cases env.realpath p with
    | some r => exact ⟨rfl, rfl, rfl, rfl⟩
    | none => exact ⟨rfl, rfl, rfl, rfl⟩

/-- The search-path location step never touches the graph state fields and
can only switch the missing-prefix flag on. -/
theorem mkDepLocate_state (env : Env) (filename pfx1 : String) (s1 : BState) :
    ((mkDepLocate env filename pfx1 s1).2.deps = s1.deps) ∧
    ((mkDepLocate env filename pfx1 s1).2.deps_per_file = s1.deps_per_file) ∧
    ((mkDepLocate env filename pfx1 s1).2.deps_collected = s1.deps_collected) ∧
    (s1.missing_prefixes = true →
      (mkDepLocate env filename pfx1 s1).2.missing_prefixes = true) := by
  unfold mkDepLocate
  by_cases h : (pfx1 = "" || !(env.fileExists (pfx1 ++ filename))) = true
  · rw [if_pos h]
    dsimp only
    by_cases h2 : s1.settings.searchPaths.length = 0 <;>
      simp only [h2, if_true, if_false, if_pos, if_neg] <;>
      · split <;> refine ⟨rfl, rfl, rfl, fun hm => ?_⟩ <;>
          first | rfl | exact hm
  · rw [if_neg h]
    exact ⟨rfl, rfl, rfl, fun hm => hm⟩

/-- The escalation step never touches the graph state fields and can only
switch the missing-prefix flag on. -/
theorem mkDepEscalate_state (env : Env) (filename : String)
    (pr : String × BState) :
    ((mkDepEscalate env filename pr).deps = pr.2.deps) ∧
    ((mkDepEscalate env filename pr).deps_per_file = pr.2.deps_per_file) ∧
    ((mkDepEscalate env filename pr).deps_collected = pr.2.deps_collected) ∧
    (pr.2.missing_prefixes = true →
      (mkDepEscalate env filename pr).missing_prefixes = true) := by
  unfold mkDepEscalate
  split
  · have hu := getUserInput_state env filename { pr.2 with missing_prefixes := true }
    exact ⟨hu.1, hu.2.1, hu.2.2.1, fun _ => hu.2.2.2.1⟩
  · exact ⟨rfl, rfl, rfl, fun hm => hm⟩

/-- `Dependency::Dependency` never touches the graph state fields and can
only switch the missing-prefix flag on. -/
theorem mkDependency_state (env : Env) (p f : String) (s : BState) :
    ((mkDependency env p f s).2.deps = s.deps) ∧
    ((mkDependency env p f s).2.deps_per_file = s.deps_per_file) ∧
    ((mkDependency env p f s).2.deps_collected = s.deps_collected) ∧
    (s.missing_prefixes = true →
      (mkDependency env p f s).2.missing_prefixes = true) := by
  have hr := resolveOriginalFile_state env (rtrim p) f s
  have hl := mkDepLocate_state env
    (stripPfx (resolveOriginalFile env (rtrim p) f s).1.1)
    (normSlashNE (dirnameOf (resolveOriginalFile env (rtrim p) f s).1.1))
    (resolveOriginalFile env (rtrim p) f s).2
  have he := mkDepEscalate_state env
    (stripPfx (resolveOriginalFile env (rtrim p) f s).1.1)
    (mkDepLocate env
      (stripPfx (resolveOriginalFile env (rtrim p) f s).1.1)
      (normSlashNE (dirnameOf (resolveOriginalFile env (rtrim p) f s).1.1))
      (resolveOriginalFile env (rtrim p) f s).2)
  unfold mkDependency
  dsimp only
  split
  · exact ⟨hr.1, hr.2.1, hr.2.2.1, fun hm => (hr.2.2.2).symm ▸ hm⟩
  · refine ⟨he.1.trans (hl.1.trans hr.1), he.2.1.trans (hl.2.1.trans hr.2.1),
      he.2.2.1.trans (hl.2.2.1.trans hr.2.2.1), fun hm => ?_⟩
    exact he.2.2.2 (hl.2.2.2 (hr.2.2.2 ▸ hm))

/-- `addDependency` keeps the collected set, can only switch the
missing-prefix flag on, never shrinks the registry, and only ever creates
a per-file entry for the inspected file itself. -/
theorem addDependency_state (env : Env) (p f : String) (s : BState) :
    ((addDependency env p f s).deps_collected = s.deps_collected) ∧
    (s.missing_prefixes = true →
      (addDependency env p f s).missing_prefixes = true) ∧
    (s.deps.length ≤ (addDependency env p f s).deps.length) ∧
    (∀ g, (lookupA (addDependency env p f s).deps_per_file g).isSome = true →
      (lookupA s.deps_per_file g).isSome = true ∨ g = f) := by
  obtain ⟨h1, h2, h3, h4⟩ := mkDependency_state env p f s
  unfold addDependency
  dsimp only
  generalize hM : mkDependency env p f s = M at h1 h2 h3 h4 ⊢
  obtain ⟨dep, s1⟩ := M
  dsimp only at h1 h2 h3 h4 ⊢
  refine ⟨?_, ?_, ?_, ?_⟩
  · repeat' split
    all_goals exact h3
  · intro hm
    repeat' split
    all_goals exact h4 hm
  · repeat' split
    all_goals simp [List.length_map, h1, Nat.le_succ]
  · intro g hg
    rw [← h2]
    repeat' split at hg
    all_goals
      first
      | exact lookupA_ensureKey_isSome hg
      | · rw [lookupA_mapSet] at hg
          by_cases hgf : g = f
          · exact Or.inr hgf
          · rw [if_neg hgf] at hg
            exact lookupA_ensureKey_isSome hg

/-- `collectRpaths` only touches `rpaths_per_file`. -/
theorem collectRpaths_state (env : Env) (f : String) (s : BState) :
    ((collectRpaths env f s).deps = s.deps) ∧
    ((collectRpaths env f s).deps_per_file = s.deps_per_file) ∧
    ((collectRpaths env f s).deps_collected = s.deps_collected) ∧
    ((collectRpaths env f s).missing_prefixes = s.missing_prefixes) := by
  unfold collectRpaths
  split
  · exact foldlPreserve
      (fun st => st.deps = s.deps ∧ st.deps_per_file = s.deps_per_file ∧
        st.deps_collected = s.deps_collected ∧
        st.missing_prefixes = s.missing_prefixes)
      (fun st r =>
        { st with rpaths_per_file :=
            mapSet st.rpaths_per_file f (lookupD st.rpaths_per_file f [] ++ [r]) })
      (fun st x hst => hst) (env.lcRpaths f) s ⟨rfl, rfl, rfl, rfl⟩
  · exact ⟨rfl, rfl, rfl, rfl⟩

/-- One inspector line keeps the collected set, can only switch the
missing-prefix flag on, never shrinks the registry, and only creates a
per-file entry for the inspected file. -/
theorem processLine_state (env : Env) (f : String) (s : BState)
    (line : String) :
    ((processLine env f s line).deps_collected = s.deps_collected) ∧
    (s.missing_prefixes = true →
      (processLine env f s line).missing_prefixes = true) ∧
    (s.deps.length ≤ (processLine env f s line).deps.length) ∧
    (∀ g, (lookupA (processLine env f s line).deps_per_file g).isSome = true →
      (lookupA s.deps_per_file g).isSome = true ∨ g = f) := by
  unfold processLine
  split
  · exact ⟨rfl, fun hm => hm, Nat.le_refl _, fun g hg => Or.inl hg⟩
  · split
    · exact ⟨rfl, fun hm => hm, Nat.le_refl _, fun g hg => Or.inl hg⟩
    · dsimp only
      split
      · exact ⟨rfl, fun hm => hm, Nat.le_refl _, fun g hg => Or.inl hg⟩
      · exact addDependency_state env _ f s

/-- The processed-lines fold keeps the collected set, can only switch the
missing-prefix flag on, never shrinks the registry, and only creates
per-file entries for the inspected file. -/
theorem processLines_state (env : Env) (f : String) (lines : List String)
    (s : BState) :
    ((lines.foldl (processLine env f) s).deps_collected = s.deps_collected) ∧
    (s.missing_prefixes = true →
      (lines.foldl (processLine env f) s).missing_prefixes = true) ∧
    (s.deps.length ≤ (lines.foldl (processLine env f) s).deps.length) ∧
    (∀ g, (lookupA (lines.foldl (processLine env f) s).deps_per_file g).isSome = true →
      (lookupA s.deps_per_file g).isSome = true ∨ g = f) := by
  induction lines generalizing s with
  | nil => exact ⟨rfl, fun hm => hm, Nat.le_refl _, fun g hg => Or.inl hg⟩
  | cons line rest ih =>
    obtain ⟨p1, p2, p3, p4⟩ := processLine_state env f s line
    obtain ⟨i1, i2, i3, i4⟩ := ih (processLine env f s line)
    refine ⟨i1.trans p1, fun hm => i2 (p2 hm), Nat.le_trans p3 i3, ?_⟩
    intro g hg
    rcases i4 g hg with h | h
    · exact p4 g h
    · exact Or.inr h

/-- `collectDependencies(filename)` characterized: a no-op on an already
collected file, and otherwise exactly appending the file to the collected
set while preserving the other invariants tracked here. -/
theorem collectDependenciesFile_state (env : Env) (f : String) (s : BState) :
    (f ∈ s.deps_collected → collectDependenciesFile env f s = s) ∧
    (f ∉ s.deps_collected →
      (collectDependenciesFile env f s).deps_collected
        = s.deps_collected ++ [f]) ∧
    (s.missing_prefixes = true →
      (collectDependenciesFile env f s).missing_prefixes = true) ∧
    (s.deps.length ≤ (collectDependenciesFile env f s).deps.length) ∧
    (∀ g, (lookupA (collectDependenciesFile env f s).deps_per_file g).isSome = true →
      (lookupA s.deps_per_file g).isSome = true ∨ g = f) ∧
    (∀ x ∈ s.deps_collected, x ∈ (collectDependenciesFile env f s).deps_collected) := by
  obtain ⟨r1, r2, r3, r4⟩ := collectRpaths_state env f s
  obtain ⟨l1, l2, l3, l4⟩ := processLines_state env f (env.inspect f)
    (collectRpaths env f s)
  unfold collectDependenciesFile
  by_cases hc : f ∈ s.deps_collected
  · rw [if_pos hc]
    exact ⟨fun _ => rfl, fun hn => absurd hc hn, fun hm => hm, Nat.le_refl _,
      fun g hg => Or.inl hg, fun x hx => hx⟩
  · rw [if_neg hc]
    dsimp only
    refine ⟨fun h => absurd h hc, fun _ => ?_, fun hm => ?_, ?_, ?_, ?_⟩
    · rw [l1, r3]
    · exact l2 (r4 ▸ hm)
    · exact Nat.le_trans (Nat.le_of_eq (congrArg List.length r1.symm)) l3
    · intro g hg
      rcases l4 g hg with h | h
      · exact Or.inl (r2 ▸ h)
      · exact Or.inr h
    · intro x hx
      rw [l1, r3]
      exact List.mem_append_left _ hx

/-- C6 counterexample to the claim as stated: inspecting a file whose only
reference is a system library marks it collected but creates *no*
`deps_per_file` entry — the claimed "if and only if" fails in the
collected-implies-entry direction. -/
theorem c6_counterexample :
    ("/app/prog" ∈ (collectDependenciesFile envC6 "/app/prog"
        (initState defaultSettings)).deps_collected) ∧
    lookupA (collectDependenciesFile envC6 "/app/prog"
        (initState defaultSettings)).deps_per_file "/app/prog" = none := by
  constructor
  · decide
  · decide

/-- C6 amended.  One direction of the claimed invariant does hold and is
preserved by every inspection: whenever every existing `deps_per_file`
entry belongs to a collected file, the same is true after
`collectDependencies` runs on any file (new entries are only ever created
for the file being inspected, which ends up collected).  The converse
direction is refuted by the counterexample. -/
theorem c6_entry_implies_collected (env : Env) (f : String) (s : BState)
    (h : ∀ g, (lookupA s.deps_per_file g).isSome = true →
      g ∈ s.deps_collected) :
    ∀ g, (lookupA (collectDependenciesFile env f s).deps_per_file g).isSome = true →
      g ∈ (collectDependenciesFile env f s).deps_collected := by
  obtain ⟨c1, c2, c3, c4, c5, c6⟩ := collectDependenciesFile_state env f s
  intro g hg
  by_cases hc : f ∈ s.deps_collected
  · rw [c1 hc] at hg ⊢
    exact h g hg
  · rcases c5 g hg with hsome | hgf
    · exact c6 g (h g hsome)
    · rw [c2 hc, hgf]
      exact List.mem_append_right _ (List.mem_singleton.mpr rfl)

/-- C6 witness: a state with one recorded entry keeps satisfying the
amended invariant after inspecting a new file. -/
theorem c6_witness :
    "/a" ∈ (collectDependenciesFile trivEnv "/b"
      { initState defaultSettings with
        deps_collected := ["/a"]
        deps_per_file := [("/a", [])] }).deps_collected :=
  c6_entry_implies_collected trivEnv "/b"
    { initState defaultSettings with
      deps_collected := ["/a"]
      deps_per_file := [("/a", [])] }
    (fun g hg => by
      rw [lookupA_cons] at hg
      by_cases hag : ("/a", ([] : List Dependency)).1 = g
      · rw [← hag]
        decide
      · rw [if_neg hag] at hg
        simp [lookupA] at hg)
    "/a" (by decide)

/-- C9.  With the global `missing_prefixes` flag set, every
reference-rewrite of a dependent file additionally attempts the rewrite
keyed on the bare leaf filename (and retries the symlink aliases), on top
of the rewrites for the canonical original path and every alias; and the
flag is applied globally: `changeLibPathsOnFile` rewrites *every*
dependency recorded for the file with the bare-filename attempt once the
flag is on. -/
theorem c9_missing_prefix_bare_rewrite :
    (∀ (st : Settings) (d : Dependency) (f : String),
      fixFileCmds true st d f =
        fixFileCmds false st d f
        ++ [changeInstallNameCmd f d.filename (d.getInnerPath st)]
        ++ d.symlinks.map
            (fun sl => changeInstallNameCmd f sl (d.getInnerPath st))) ∧
    (∀ (env : Env) (file : String) (s : BState) (cmds : List String)
        (s' : BState),
      s.missing_prefixes = true →
      changeLibPathsOnFilePlan env file s = .ok (cmds, s') →
      ∀ d ∈ lookupD s'.deps_per_file file ([] : List Dependency),
        changeInstallNameCmd file d.filename (d.getInnerPath s'.settings)
          ∈ cmds) := by
  constructor
  · intro st d f
    unfold fixFileCmds
    simp [List.append_assoc]
  · intro env file s cmds s' hm heq d hd
    have hmono := (collectDependenciesFile_state env file s).2.2.1 hm
    unfold changeLibPathsOnFilePlan at heq
    generalize hS1 : collectDependenciesFile env file s = s1 at heq hmono
    dsimp only at heq
    split at heq
    · next hall =>
      injection heq with heq'
      injection heq' with hcmds hs'
      subst hcmds
      subst hs'
      dsimp only at hd ⊢
      rw [lookupD_ensureKey_self] at hd
      refine List.mem_flatten.mpr
        ⟨fixFileCmds s1.missing_prefixes s1.settings d file,
          List.mem_map_of_mem _ hd, ?_⟩
      rw [hmono]
      unfold fixFileCmds
      simp
    · exact absurd heq (by simp)

/-- C9 witness: with the flag set, a concrete dependent file's rewrite
batch contains the bare-filename rewrite. -/
theorem c9_witness :
    changeInstallNameCmd "/f" "libX.dylib"
        "@executable_path/../libs/libX.dylib"
      ∈ ["install_name_tool -change \"/opt/libX.dylib\" \"@executable_path/../libs/libX.dylib\" \"/f\"",
         "install_name_tool -change \"libX.dylib\" \"@executable_path/../libs/libX.dylib\" \"/f\""] :=
  c9_missing_prefix_bare_rewrite.2 trivEnv "/f" sW
    ["install_name_tool -change \"/opt/libX.dylib\" \"@executable_path/../libs/libX.dylib\" \"/f\"",
     "install_name_tool -change \"libX.dylib\" \"@executable_path/../libs/libX.dylib\" \"/f\""]
    sW rfl rfl ⟨"libX.dylib", "/opt/", [], "libX.dylib"⟩ (by decide)

/-- Membership in a merged symlink list is membership in either side. -/
theorem mem_mergeSymlinksFrom (d n : Dependency) (x : String) :
    x ∈ (d.mergeSymlinksFrom n).symlinks ↔
      x ∈ d.symlinks ∨ x ∈ n.symlinks := by
  unfold Dependency.mergeSymlinksFrom
  suffices h : ∀ (l : List String) (d : Dependency),
      x ∈ (l.foldl Dependency.addSymlink d).symlinks ↔
        x ∈ d.symlinks ∨ x ∈ l by
    exact h n.symlinks d
  intro l
  induction l with
  | nil => intro d; simp
  | cons y ys ih =>
    intro d
    rw [List.foldl_cons, ih]
    have hstep : x ∈ (d.addSymlink y).symlinks ↔ x ∈ d.symlinks ∨ x = y := by
      unfold Dependency.addSymlink
      split
      · next hy =>
        exact ⟨fun h => Or.inl h, fun h => h.elim id (fun hxy => hxy ▸ hy)⟩
      · simp
    rw [hstep, List.mem_cons]
    tauto

/-- `Dependency::Dependency` on a plain reference that canonicalizes to an
existing, bundled file: the entry records the leaf filename, the resolved
directory, the raw reference as a symlink when it differs from the
canonical path, and the leaf filename as installed name; the global state
is untouched. -/
theorem mkDependency_resolved (env : Env) (r f canon : String) (s : BState)
    (ht : rtrim r = r) (hrp : isRpath r = false)
    (hc : env.realpath r = some canon)
    (hdir : dirnameOf canon ≠ "")
    (hex : env.fileExists canon = true)
    (hb : isPrefixBundled s.settings (dirnameOf canon) = true) :
    mkDependency env r f s =
      ({ filename := stripPfx canon, pfx := dirnameOf canon,
         symlinks := if canon ≠ r then [r] else [],
         new_name := stripPfx canon }, s) := by
  have hns : normSlashNE (dirnameOf canon) = dirnameOf canon :=
    normSlashNE_of_endsSlash (endsSlash_dirnameOf hdir)
  have hres : resolveOriginalFile env r f s = ((canon, false), s) := by
    unfold resolveOriginalFile
    simp [hrp, hc]
  have hexists : env.fileExists (dirnameOf canon ++ stripPfx canon) = true := by
    rw [dirnameOf_append_strip]
    exact hex
  have hloc : mkDepLocate env (stripPfx canon) (dirnameOf canon) s
      = (dirnameOf canon, s) := by
    unfold mkDepLocate
    simp [hdir, hexists]
  have hesc : mkDepEscalate env (stripPfx canon) (dirnameOf canon, s) = s := by
    unfold mkDepEscalate
    simp [hdir, hexists]
  unfold mkDependency
  rw [ht]
  dsimp only
  rw [hres]
  dsimp only
  rw [hns]
  simp only [hb, Bool.not_true, Bool.false_eq_true, if_false]
  rw [hloc, hesc]

/-- `addDependency` on a plain reference that canonicalizes to an
existing, bundled file: the registry is symlink-merged on matching leaf
filenames, and the new entry is appended exactly when no entry with that
leaf filename was present; the settings are untouched. -/
theorem addDependency_resolved (env : Env) (r f canon : String) (s : BState)
    (ht : rtrim r = r) (hrp : isRpath r = false)
    (hc : env.realpath r = some canon)
    (hdir : dirnameOf canon ≠ "")
    (hex : env.fileExists canon = true)
    (hb : isPrefixBundled s.settings (dirnameOf canon) = true) :
    ((addDependency env r f s).deps =
      (let dep : Dependency :=
        { filename := stripPfx canon, pfx := dirnameOf canon,
          symlinks := if canon ≠ r then [r] else [],
          new_name := stripPfx canon }
       let merged := s.deps.map
         (fun d => if d.filename = stripPfx canon then d.mergeSymlinksFrom dep else d)
       if s.deps.any (fun d => d.filename = stripPfx canon) then merged
       else merged ++ [dep])) ∧
    (addDependency env r f s).settings = s.settings := by
  have hmk := mkDependency_resolved env r f canon s ht hrp hc hdir hex hb
  unfold addDependency
  rw [hmk]
  dsimp only
  simp only [hb, Bool.not_true, Bool.false_eq_true, if_false]
  by_cases hany : (s.deps.any (fun d => d.filename = stripPfx canon)) = true
  · simp only [hany, if_true]
    split <;> exact ⟨rfl, rfl⟩
  · simp only [hany, Bool.false_eq_true, if_false]
    split <;> exact ⟨rfl, rfl⟩

/-- The symlink recorded at construction time, characterized. -/
theorem mem_symsIf (x r canon : String) :
    (x ∈ (if canon ≠ r then [r] else ([] : List String))) ↔
      (x = r ∧ ¬ (r = canon)) := by
  split
  · next h =>
    constructor
    · intro hx
      exact ⟨by simpa using hx, fun hr => h hr.symm⟩
    · rintro ⟨hx, _⟩
      simp [hx]
  · next h =>
    have hr : r = canon := (not_ne_iff.mp h).symm
    simp [hr]

/-- C1.  Two reference strings that canonicalize to the same existing,
bundled real file produce exactly one registry entry after both have been
processed by `addDependency` (starting from an empty registry, possibly
for different referencing files), that entry's symlink-alias set is
exactly the set of reference strings that differed from the canonical
path, and the outcome — identifying fields and alias set — is the same in
either discovery order. -/
theorem c1_merge_union_order_independent
    (env : Env) (r1 r2 fA fB canon : String) (s : BState)
    (ht1 : rtrim r1 = r1) (ht2 : rtrim r2 = r2)
    (hp1 : isRpath r1 = false) (hp2 : isRpath r2 = false)
    (hc1 : env.realpath r1 = some canon) (hc2 : env.realpath r2 = some canon)
    (hdir : dirnameOf canon ≠ "")
    (hex : env.fileExists canon = true)
    (hb : isPrefixBundled s.settings (dirnameOf canon) = true)
    (hd : s.deps = []) :
    ((addDependency env r2 fB (addDependency env r1 fA s)).deps.length = 1) ∧
    ((addDependency env r1 fA (addDependency env r2 fB s)).deps.length = 1) ∧
    ((addDependency env r2 fB (addDependency env r1 fA s)).deps.map
        Dependency.filename = [stripPfx canon]) ∧
    ((addDependency env r1 fA (addDependency env r2 fB s)).deps.map
        Dependency.filename = [stripPfx canon]) ∧
    ((addDependency env r2 fB (addDependency env r1 fA s)).deps.map
        Dependency.pfx = [dirnameOf canon]) ∧
    ((addDependency env r1 fA (addDependency env r2 fB s)).deps.map
        Dependency.pfx = [dirnameOf canon]) ∧
    ((addDependency env r2 fB (addDependency env r1 fA s)).deps.map
        Dependency.new_name = [stripPfx canon]) ∧
    ((addDependency env r1 fA (addDependency env r2 fB s)).deps.map
        Dependency.new_name = [stripPfx canon]) ∧
    ((addDependency env r2 fB (addDependency env r1 fA s)).deps.map
        (fun d => d.symlinks.toFinset)
      = [([r1, r2].filter (fun r => r ≠ canon)).toFinset]) ∧
    ((addDependency env r1 fA (addDependency env r2 fB s)).deps.map
        (fun d => d.symlinks.toFinset)
      = [([r1, r2].filter (fun r => r ≠ canon)).toFinset]) := by
  have h1 := addDependency_resolved env r1 fA canon s ht1 hp1 hc1 hdir hex hb
  have h2 := addDependency_resolved env r2 fB canon s ht2 hp2 hc2 hdir hex hb
  have e1 : (addDependency env r1 fA s).deps =
      [{ filename := stripPfx canon, pfx := dirnameOf canon,
         symlinks := if canon ≠ r1 then [r1] else [],
         new_name := stripPfx canon }] := by
    rw [h1.1, hd]
    simp
  have e1' : (addDependency env r2 fB s).deps =
      [{ filename := stripPfx canon, pfx := dirnameOf canon,
         symlinks := if canon ≠ r2 then [r2] else [],
         new_name := stripPfx canon }] := by
    rw [h2.1, hd]
    simp
  have hbA : isPrefixBundled (addDependency env r1 fA s).settings
      (dirnameOf canon) = true := by rw [h1.2]; exact hb
  have hbB : isPrefixBundled (addDependency env r2 fB s).settings
      (dirnameOf canon) = true := by rw [h2.2]; exact hb
  have h12 := addDependency_resolved env r2 fB canon
    (addDependency env r1 fA s) ht2 hp2 hc2 hdir hex hbA
  have h21 := addDependency_resolved env r1 fA canon
    (addDependency env r2 fB s) ht1 hp1 hc1 hdir hex hbB
  have e2 : (addDependency env r2 fB (addDependency env r1 fA s)).deps =
      [Dependency.mergeSymlinksFrom
        { filename := stripPfx canon, pfx := dirnameOf canon,
          symlinks := if canon ≠ r1 then [r1] else [],
          new_name := stripPfx canon }
        { filename := stripPfx canon, pfx := dirnameOf canon,
          symlinks := if canon ≠ r2 then [r2] else [],
          new_name := stripPfx canon }] := by
    rw [h12.1, e1]
    simp
  have e2' : (addDependency env r1 fA (addDependency env r2 fB s)).deps =
      [Dependency.mergeSymlinksFrom
        { filename := stripPfx canon, pfx := dirnameOf canon,
          symlinks := if canon ≠ r2 then [r2] else [],
          new_name := stripPfx canon }
        { filename := stripPfx canon, pfx := dirnameOf canon,
          symlinks := if canon ≠ r1 then [r1] else [],
          new_name := stripPfx canon }] := by
    rw [h21.1, e1']
    simp
  have hfin : ∀ (σa σb : List String) (da db : Dependency),
      da.symlinks = σa → db.symlinks = σb →
      (σa = (if canon ≠ r1 then [r1] else []) ∧
        σb = (if canon ≠ r2 then [r2] else [])) ∨
      (σa = (if canon ≠ r2 then [r2] else []) ∧
        σb = (if canon ≠ r1 then [r1] else [])) →
      (da.mergeSymlinksFrom db).symlinks.toFinset
        = ([r1, r2].filter (fun r => r ≠ canon)).toFinset := by
    intro σa σb da db ha hb2 hor
    apply Finset.ext
    intro x
    rw [List.mem_toFinset, List.mem_toFinset, mem_mergeSymlinksFrom,
      List.mem_filter, ha, hb2]
    have hiff : ∀ y, (x ∈ (if canon ≠ y then [y] else ([] : List String))) ↔
        (x = y ∧ ¬ (y = canon)) := fun y => mem_symsIf x y canon
    rcases hor with ⟨ha', hb'⟩ | ⟨ha', hb'⟩ <;> subst ha' <;> subst hb' <;>
      rw [hiff, hiff] <;>
      constructor
    · rintro (⟨rfl, h⟩ | ⟨rfl, h⟩)
      · exact ⟨by simp, by simpa using h⟩
      · exact ⟨by simp, by simpa using h⟩
    · rintro ⟨hmem, hne⟩
      have hne' := of_decide_eq_true hne
      rcases List.mem_cons.mp hmem with rfl | hmem'
      · exact Or.inl ⟨rfl, fun h => hne' h⟩
      · rcases List.mem_cons.mp hmem' with rfl | hmem''
        · exact Or.inr ⟨rfl, fun h => hne' h⟩
        · exact absurd hmem'' (List.not_mem_nil x)
    · rintro (⟨rfl, h⟩ | ⟨rfl, h⟩)
      · exact ⟨by simp, by simpa using h⟩
      · exact ⟨by simp, by simpa using h⟩
    · rintro ⟨hmem, hne⟩
      have hne' := of_decide_eq_true hne
      rcases List.mem_cons.mp hmem with rfl | hmem'
      · exact Or.inr ⟨rfl, fun h => hne' h⟩
      · rcases List.mem_cons.mp hmem' with rfl | hmem''
        · exact Or.inl ⟨rfl, fun h => hne' h⟩
        · exact absurd hmem'' (List.not_mem_nil x)
  refine ⟨by rw [e2]; rfl, by rw [e2']; rfl, ?_, ?_, ?_, ?_, ?_, ?_, ?_, ?_⟩
  · rw [e2]
    simp [mergeSymlinksFrom_filename]
  · rw [e2']
    simp [mergeSymlinksFrom_filename]
  · rw [e2]
    simp [mergeSymlinksFrom_pfx]
  · rw [e2']
    simp [mergeSymlinksFrom_pfx]
  · rw [e2]
    simp [mergeSymlinksFrom_new_name]
  · rw [e2']
    simp [mergeSymlinksFrom_new_name]
  · rw [e2]
    simp only [List.map_cons, List.map_nil]
    rw [hfin _ _ _ _ rfl rfl (Or.inl ⟨rfl, rfl⟩)]
  · rw [e2']
    simp only [List.map_cons, List.map_nil]
    rw [hfin _ _ _ _ rfl rfl (Or.inr ⟨rfl, rfl⟩)]

/-- C1 witness: a symlink reference and the real path, in both discovery
orders, produce a single merged registry entry. -/
theorem c1_witness :
    ((addDependency envC1 "/real/libX.dylib" "/app/b"
        (addDependency envC1 "/sym/libX.dylib" "/app/a"
          (initState defaultSettings))).deps.length = 1) ∧
    ((addDependency envC1 "/sym/libX.dylib" "/app/a"
        (addDependency envC1 "/real/libX.dylib" "/app/b"
          (initState defaultSettings))).deps.length = 1) ∧
    ((addDependency envC1 "/real/libX.dylib" "/app/b"
        (addDependency envC1 "/sym/libX.dylib" "/app/a"
          (initState defaultSettings))).deps.map
        (fun d => d.symlinks.toFinset)
      = [(["/sym/libX.dylib", "/real/libX.dylib"].filter
          (fun r => r ≠ "/real/libX.dylib")).toFinset]) :=
  let h := c1_merge_union_order_independent envC1 "/sym/libX.dylib"
    "/real/libX.dylib" "/app/a" "/app/b" "/real/libX.dylib"
    (initState defaultSettings) (by decide) (by decide) (by decide)
    (by decide) (by decide) (by decide) (by decide) (by decide) (by decide)
    rfl
  ⟨h.1, h.2.1, h.2.2.2.2.2.2.2.2.1⟩

/-- C7.  Planning is deterministic: identical Settings/state and identical
collaborator responses yield byte-identical planned operations (the
embedding is a pure function of the environment and state); and in every
ordered search list the earliest entry whose candidate exists wins — both
for the configured search paths (as scanned by `searchFilenameInRpaths`
and `Dependency::Dependency` via `find?`) and for a file's declared
LC_RPATH entries (as scanned by `rpathCandLoop`). -/
theorem c7_determinism_first_hit :
    (∀ (env1 env2 : Env) (s1 s2 : BState), env1 = env2 → s1 = s2 →
      doneWithDepsPlan env1 s1 = doneWithDepsPlan env2 s2) ∧
    (∀ (env : Env) (l1 l2 : List String) (sp suffix : String),
      (∀ x ∈ l1, env.fileExists (x ++ suffix) = false) →
      env.fileExists (sp ++ suffix) = true →
      (l1 ++ sp :: l2).find? (fun p => env.fileExists (p ++ suffix))
        = some sp) ∧
    (∀ (env : Env) (rf df suffix : String) (l1 l2 : List String)
        (r fp : String),
      (∀ x ∈ l1, checkPath env rf df (normSlash x ++ suffix) = none) →
      checkPath env rf df (normSlash r ++ suffix) = some fp →
      rpathCandLoop env rf df suffix (l1 ++ r :: l2) = some fp) := by
  refine ⟨fun e1 e2 s1 s2 he hs => by rw [he, hs], ?_, ?_⟩
  · intro env l1 l2 sp suffix hfail hhit
    induction l1 with
    | nil =>
      rw [List.nil_append]
      exact List.find?_cons_of_pos _ hhit
    | cons x xs ih =>
      rw [List.cons_append]
      rw [List.find?_cons_of_neg _ (by simp [hfail x (List.mem_cons_self x xs)])]
      exact ih (fun y hy => hfail y (List.mem_cons_of_mem x hy))
  · intro env rf df suffix l1 l2 r fp hfail hhit
    induction l1 with
    | nil =>
      rw [List.nil_append]
      unfold rpathCandLoop
      rw [hhit]
    | cons x xs ih =>
      rw [List.cons_append]
      unfold rpathCandLoop
      rw [hfail x (List.mem_cons_self x xs)]
      exact ih (fun y hy => hfail y (List.mem_cons_of_mem x hy))

/-- C7 witness: concrete first-hit resolutions and a concrete identical
re-run. -/
theorem c7_witness :
    (doneWithDepsPlan trivEnv (initState defaultSettings)
      = doneWithDepsPlan trivEnv (initState defaultSettings)) ∧
    ((["/a/"] ++ "/real/" :: ["/b/"]).find?
        (fun p => envC7.fileExists (p ++ "libX.dylib")) = some "/real/") ∧
    (rpathCandLoop envC7 "@rpath/libY.dylib" "/app/prog" "libY.dylib"
        (["/opt"] ++ "@loader_path/../lib" :: [])
      = some "/lib/libY.dylib") :=
  ⟨c7_determinism_first_hit.1 trivEnv trivEnv _ _ rfl rfl,
   c7_determinism_first_hit.2.1 envC7 ["/a/"] ["/b/"] "/real/" "libX.dylib"
     (by decide) (by decide),
   c7_determinism_first_hit.2.2 envC7 "@rpath/libY.dylib" "/app/prog"
     "libY.dylib" ["/opt"] [] "@loader_path/../lib" "/lib/libY.dylib"
     (by decide) (by decide)⟩

/-- Inspection facts relative to a reference state with the same registry
and collected set: the registry never shrinks, collected files stay
collected, and a registry change forces a newly collected file. -/
theorem collect_step_facts (env : Env) (f : String) (st0 st : BState)
    (hdeps : st.deps = st0.deps) (hcol : st.deps_collected = st0.deps_collected) :
    (st0.deps.length ≤ (collectDependenciesFile env f st).deps.length) ∧
    (∀ x ∈ st0.deps_collected, x ∈ (collectDependenciesFile env f st).deps_collected) ∧
    ((collectDependenciesFile env f st).deps.length ≠ st0.deps.length →
      ∃ g, g ∉ st0.deps_collected ∧
        g ∈ (collectDependenciesFile env f st).deps_collected) := by
  obtain ⟨c1, c2, _c3, c4, _c5, c6⟩ := collectDependenciesFile_state env f st
  refine ⟨?_, ?_, ?_⟩
  · calc st0.deps.length = st.deps.length := by rw [hdeps]
    _ ≤ _ := c4
  · intro x hx
    exact c6 x (by rw [hcol]; exact hx)
  · intro hne
    by_cases hc : f ∈ st.deps_collected
    · exfalso
      apply hne
      rw [c1 hc, hdeps]
    · refine ⟨f, ?_, ?_⟩
      · rw [← hcol]; exact hc
      · rw [c2 hc]
        exact List.mem_append_right _ (List.mem_singleton.mpr rfl)

/-- One pass-step: registry never shrinks, collected files stay collected,
and a registry change forces a newly collected file. -/
theorem subDepStep_facts (env : Env) (st : BState) (d : Dependency) :
    (st.deps.length ≤ (subDepStep env st d).deps.length) ∧
    (∀ x ∈ st.deps_collected, x ∈ (subDepStep env st d).deps_collected) ∧
    ((subDepStep env st d).deps.length ≠ st.deps.length →
      ∃ g, g ∉ st.deps_collected ∧ g ∈ (subDepStep env st d).deps_collected) := by
  unfold subDepStep
  dsimp only
  by_cases hr : isRpath d.getOriginalPath = true
  · simp only [hr, if_true]
    have hs := sfir_state env d.getOriginalPath d.getOriginalPath st
    exact collect_step_facts env _ st _ hs.1 hs.2.2.1
  · simp only [Bool.not_eq_true] at hr
    simp only [hr, Bool.false_eq_true, if_false]
    exact collect_step_facts env _ st st rfl rfl

/-- One full pass: registry never shrinks, collected files stay collected,
and a registry change forces a newly collected file. -/
theorem subDepPass_facts (env : Env) (s : BState) :
    (s.deps.length ≤ (subDepPass env s).deps.length) ∧
    (∀ x ∈ s.deps_collected, x ∈ (subDepPass env s).deps_collected) ∧
    ((subDepPass env s).deps.length ≠ s.deps.length →
      ∃ f, f ∉ s.deps_collected ∧ f ∈ (subDepPass env s).deps_collected) := by
  unfold subDepPass
  suffices h : ∀ (l : List Dependency) (st : BState),
      (st.deps.length ≤ (l.foldl (subDepStep env) st).deps.length) ∧
      (∀ x ∈ st.deps_collected, x ∈ (l.foldl (subDepStep env) st).deps_collected) ∧
      ((l.foldl (subDepStep env) st).deps.length ≠ st.deps.length →
        ∃ f, f ∉ st.deps_collected ∧
          f ∈ (l.foldl (subDepStep env) st).deps_collected) from
    h s.deps s
  intro l
  induction l with
  | nil =>
    intro st
    exact ⟨Nat.le_refl _, fun x hx => hx, fun hne => absurd rfl hne⟩
  | cons d ds ih =>
    intro st
    rw [List.foldl_cons]
    obtain ⟨s1, s2, s3⟩ := subDepStep_facts env st d
    obtain ⟨i1, i2, i3⟩ := ih (subDepStep env st d)
    refine ⟨Nat.le_trans s1 i1, fun x hx => i2 x (s2 x hx), ?_⟩
    intro hne
    by_cases hstep : (subDepStep env st d).deps.length = st.deps.length
    · have hne' : (ds.foldl (subDepStep env) (subDepStep env st d)).deps.length
          ≠ (subDepStep env st d).deps.length := by
        rw [hstep]; exact hne
      obtain ⟨f, hf1, hf2⟩ := i3 hne'
      exact ⟨f, fun hmem => hf1 (s2 f hmem), hf2⟩
    · obtain ⟨f, hf1, hf2⟩ := s3 hstep
      exact ⟨f, hf1, i2 f hf2⟩

/-- C5.  For a run whose inspected files all lie in a finite set `S` (the
finite, possibly cyclic reference graph), some pass among the first
`card S + 1` adds zero new dependencies: the fixed-point expansion of
`collectSubDependencies` stops after at most `card S` productive passes,
cycles being broken by the `deps_collected` membership check. -/
theorem c5_fixed_point_bound (env : Env) (s0 : BState) (S : Finset String)
    (hS : ∀ k : Nat, ∀ f ∈ (iterPass env k s0).deps_collected, f ∈ S) :
    ∃ k, k ≤ S.card ∧
      (subDepPass env (iterPass env k s0)).deps.length
        = (iterPass env k s0).deps.length := by
  by_contra hcon
  push_neg at hcon
  have hgrow : ∀ k, k ≤ S.card →
      ((iterPass env k s0).deps_collected.toFinset).card <
        ((iterPass env (k + 1) s0).deps_collected.toFinset).card := by
    intro k hk
    have hfacts := subDepPass_facts env (iterPass env k s0)
    obtain ⟨f, hf1, hf2⟩ := hfacts.2.2 (hcon k hk)
    apply Finset.card_lt_card
    rw [Finset.ssubset_def]
    constructor
    · intro x hx
      exact List.mem_toFinset.mpr
        (hfacts.2.1 x (List.mem_toFinset.mp hx))
    · intro hsub
      exact hf1 (List.mem_toFinset.mp (hsub (List.mem_toFinset.mpr hf2)))
  have hmono : ∀ k, k ≤ S.card + 1 →
      k ≤ ((iterPass env k s0).deps_collected.toFinset).card := by
    intro k
    induction k with
    | zero => intro _; exact Nat.zero_le _
    | succ n ih =>
      intro hk
      have h1 : n ≤ S.card := Nat.succ_le_succ_iff.mp hk
      have h2 := hgrow n h1
      have h3 := ih (Nat.le_of_succ_le hk)
      omega
  have hcard : ((iterPass env (S.card + 1) s0).deps_collected.toFinset).card
      ≤ S.card := by
    apply Finset.card_le_card
    intro x hx
    exact hS (S.card + 1) x (List.mem_toFinset.mp hx)
  have := hmono (S.card + 1) (Nat.le_refl _)
  omega

/-- C5 witness: with no dependencies at all, the very first pass is
already at the fixed point. -/
theorem c5_witness :
    ∃ k, k ≤ (∅ : Finset String).card ∧
      (subDepPass trivEnv (iterPass trivEnv k
          (initState defaultSettings))).deps.length
        = (iterPass trivEnv k (initState defaultSettings)).deps.length := by
  apply c5_fixed_point_bound
  intro k f hf
  have hfix : ∀ n, iterPass trivEnv n (initState defaultSettings)
      = initState defaultSettings := by
    intro n
    induction n with
    | zero => rfl
    | succ m ih =>
      show subDepPass trivEnv (iterPass trivEnv m (initState defaultSettings))
        = initState defaultSettings
      rw [ih]
      rfl
  rw [hfix k] at hf
  simp [initState] at hf

/-- C10 witness: a concrete self-copy plans only the permission fix. -/
theorem c10_witness :
    copyFilePlan envAllExists defaultSettings "/app/f" "/app/f"
      = .ok [chmodCmd "/app/f"] := by
  rw [(c10_copyFile_self envAllExists defaultSettings "/app/f").1]
  rfl
